import Mathlib

/-!
# Peer cache and allocation controller of `service-manager`

A shallow embedding of `pcache/pcache.go` (the tiered peer cache and its sweep)
and of `lca/lca-manager.go` (the allocation paths `AllocService` and
`AllocBetterService`, and the URL rewrite of `RequestHandler`), with the
properties that the specification states about them.

Conventions of the embedding:

* Go slices are Lean lists; `cache.Levels[l]` is `List.getD` and an assignment
  to `cache.Levels[l]` is `List.set`.  On the caches built by `NewPeerCache`
  (`NLevels = len(Levels) = 3`) every index is in range.
* `uint` subtraction on `NLevels` wraps modulo `2^64` (`usub`).
* `time.Duration` is an integer (`Int`); `RCount` is a natural number.
* The registry lookup and the ping of a sweep are the two functions of an
  `Env`; each takes the number of the probe in the sweep, so that every probe
  can have its own answer.  `sort.Slice` is any function returning a sorted
  permutation (`SliceSort`).
-/

namespace PCache

/-! ## Data model -/

/-- Overlay peer identity (`peer.ID`, a Go string type). -/
abbrev PeerID := String

/-- Performance indicator `p2putil.PerfInd`: a round-trip time. -/
structure PerfInd where
  RTT : Int
  deriving DecidableEq, Repr

/-- Peer description `p2putil.PeerInfo`, with the fields the cache uses. -/
structure PeerInfo where
  Perf : PerfInd
  ID : PeerID
  ServName : String
  deriving DecidableEq, Repr

/-- Cache record `RPeerInfo`: a peer with its reliability counter. -/
structure RPeerInfo where
  RCount : Nat
  Info : PeerInfo
  Hash : String
  Address : String
  deriving DecidableEq, Repr

/-- The exported and private data fields of `PeerCache`. -/
structure PeerCache where
  NLevels : Nat
  Levels : List (List RPeerInfo)
  rmax : Nat
  deriving DecidableEq, Repr

/-- Request record `PeerRequest` of `AddPeer`. -/
structure PeerRequest where
  ID : PeerID
  ServName : String
  Hash : String
  Address : String
  deriving DecidableEq, Repr

/-- Service requirements returned by the registry cache (`NetworkHardReq`,
`NetworkSoftReq`). -/
structure ServiceInfo where
  NetworkHardReq : PerfInd
  NetworkSoftReq : PerfInd
  deriving DecidableEq, Repr

/-- The two external calls of a sweep: the registry lookup by service name and
the ping of a peer (its measured round-trip time, `0` when it did not
complete).  The sweep makes one lookup and one ping per record; the first
argument is the number of probes made before in the same sweep, so that the
answers may differ from one probe to the next, also for two records of one
peer or one service. -/
structure Env where
  GetOrRequestService : Nat → String → ServiceInfo
  Ping : Nat → PeerID → Int

/-- Modelled from the spec: `p2putil.PerfIndCompare` is not part of the sources;
`PerfIndCompare l r` is taken to mean `l.RTT < r.RTT`. -/
def PerfIndCompare (l r : PerfInd) : Bool := decide (l.RTT < r.RTT)

/-- Comparison `RPeerInfoCompare` of two records by their last measurement. -/
def RPeerInfoCompare (l r : RPeerInfo) : Bool := PerfIndCompare l.Info.Perf r.Info.Perf

/-- The contract of `sort.Slice` with `RPeerInfoCompare` as its order: the
result is a permutation of the slice in which no later element is less than an
earlier one.  The order of equal elements is left open (the sort is not
stable). -/
structure SliceSort where
  run : List RPeerInfo → List RPeerInfo
  perm : ∀ s, List.Perm (run s) s
  sorted : ∀ s, List.Pairwise (fun a b => RPeerInfoCompare b a = false) (run s)

/-- Subtraction of `uint` values, wrapping modulo `2^64`: for operands below
`2^64` the result is `(a + 2^64 - b) % 2^64` (lemma `usub_eq_mod`). -/
def usub (a b : Nat) : Nat :=
  if b ≤ a then a - b else a + 18446744073709551616 - b

/-! ## Slice helpers -/

/-- Helper `apts`: add peer to slice. -/
def apts (s : List RPeerInfo) (p : RPeerInfo) : List RPeerInfo := s ++ [p]

/-- Helper `rpfs`: remove peer from slice, by swapping position `i` with the
last position and cutting the last position off.  An index out of range, which
panics in Go, never arises at the call sites; the slice is then returned as it
is. -/
def rpfs (s : List RPeerInfo) (i : Nat) : List RPeerInfo :=
  match s.getLast?, s[i]? with
  | some last, some x => ((s.set (s.length - 1) x).set i last).dropLast
  | _, _ => s

/-! ## Construction, insertion, removal, lookup -/

/-- Constructor `NewPeerCache`: three empty levels, `rmax = 3`. -/
def NewPeerCache : PeerCache :=
  { NLevels := 3, Levels := [[], [], []], rmax := 3 }

/-- Operation `AddPeer`: append a record with `RCount = 50` and an empty
measurement to level `NLevels - 2`. -/
def AddPeer (cache : PeerCache) (p : PeerRequest) : PeerCache :=
  { cache with
    Levels := cache.Levels.set (usub cache.NLevels 2)
      (apts (cache.Levels.getD (usub cache.NLevels 2) [])
        { RCount := 50
          Info := { Perf := { RTT := 0 }, ID := p.ID, ServName := p.ServName }
          Hash := p.Hash
          Address := p.Address }) }

/-- Inner loop of `RemovePeer` over one level: the index of the first record
with the given identity and address among the first `rmax` records.  `i` is the
range index and `count` the counter of the source. -/
def RemovePeer.level (id : PeerID) (address : String) (rmax : Nat) :
    List RPeerInfo → Nat → Nat → Option Nat
  | [], _, _ => none
  | p :: ps, i, count =>
    if count < rmax then
      if id = p.Info.ID ∧ address = p.Address then some i
      else RemovePeer.level id address rmax ps (i + 1) (count + 1)
    else none

/-- Outer loop of `RemovePeer`: `n` levels remain to be scanned from level
`l` on. -/
def RemovePeer.levels (id : PeerID) (address : String) :
    Nat → PeerCache → Nat → PeerCache
  | 0, cache, _ => cache
  | n + 1, cache, l =>
    match RemovePeer.level id address cache.rmax (cache.Levels.getD l []) 0 0 with
    | some i => { cache with Levels := cache.Levels.set l (rpfs (cache.Levels.getD l []) i) }
    | none => RemovePeer.levels id address n cache (l + 1)

/-- Operation `RemovePeer`. -/
def RemovePeer (cache : PeerCache) (id : PeerID) (address : String) : PeerCache :=
  RemovePeer.levels id address (usub cache.NLevels 1) cache 0

/-- Inner loop of `GetPeer` over one level: the first record with the hash. -/
def GetPeer.level (hash : String) : List RPeerInfo → Option (PeerID × String)
  | [] => none
  | p :: ps => if p.Hash = hash then some (p.Info.ID, p.Address) else GetPeer.level hash ps

/-- Outer loop of `GetPeer`: `n` levels remain to be scanned from level `l`
on. -/
def GetPeer.levels (cache : PeerCache) (hash : String) :
    Nat → Nat → Option (PeerID × String)
  | 0, _ => none
  | n + 1, l =>
    match GetPeer.level hash (cache.Levels.getD l []) with
    | some r => some r
    | none => GetPeer.levels cache hash n (l + 1)

/-- Operation `GetPeer`: the result and the cache after the call. -/
def GetPeer (cache : PeerCache) (hash : String) :
    Except String (PeerID × String) × PeerCache :=
  match GetPeer.levels cache hash (usub cache.NLevels 1) 0 with
  | some r => (Except.ok r, cache)
  | none => (Except.error "No suitable peer found in cache", cache)

/-! ## The sweep `updateCache` -/

/-- First pass of `updateCache` on one level: the loop over `i`, with `n`
iterations left and `k` probes made before.  A hard failure removes the record
with `rpfs` and keeps `i` (the source decrements and then increments it);
otherwise the record is updated in place and `i` advances.  The second
component lists the probes in order: the number of the probe and the record
whose service was looked up and whose peer was pinged. -/
def updateCache.probeLevel (env : Env) :
    Nat → Nat → List RPeerInfo → Nat → List RPeerInfo × List (Nat × RPeerInfo)
  | 0, _, s, _ => (s, [])
  | n + 1, k, s, i =>
    match s[i]? with
    | none => (s, [])
    | some peerRlb =>
      let servInfo := env.GetOrRequestService k peerRlb.Info.ServName
      let rtt := env.Ping k peerRlb.Info.ID
      let perf : PerfInd := { RTT := rtt }
      if rtt = 0 ∨ PerfIndCompare servInfo.NetworkHardReq perf = true then
        let r := updateCache.probeLevel env n (k + 1) (rpfs s i) i
        (r.1, (k, peerRlb) :: r.2)
      else if PerfIndCompare servInfo.NetworkSoftReq perf = true then
        let r := updateCache.probeLevel env n (k + 1)
          (s.set i { peerRlb with
            Info := { peerRlb.Info with Perf := perf }
            RCount := if peerRlb.RCount < 10 then 0 else peerRlb.RCount - 10 }) (i + 1)
        (r.1, (k, peerRlb) :: r.2)
      else
        let r := updateCache.probeLevel env n (k + 1)
          (s.set i { peerRlb with
            Info := { peerRlb.Info with Perf := perf }
            RCount := if peerRlb.RCount < 100 then peerRlb.RCount + 1 else peerRlb.RCount }) (i + 1)
        (r.1, (k, peerRlb) :: r.2)

/-- First pass of `updateCache`: the loop over the levels, `n` levels left from
level `l` on and `k` probes made before.  The inner loop gets as many
iterations as the level is long: each iteration either advances `i` or shortens
the level by one. -/
def updateCache.firstPass (env : Env) :
    Nat → Nat → PeerCache → Nat → PeerCache × List (Nat × RPeerInfo)
  | 0, _, cache, _ => (cache, [])
  | n + 1, k, cache, l =>
    let r := updateCache.probeLevel env (cache.Levels.getD l []).length k
      (cache.Levels.getD l []) 0
    let rest := updateCache.firstPass env n (k + r.2.length)
      { cache with Levels := cache.Levels.set l r.1 } (l + 1)
    (rest.1, r.2 ++ rest.2)

/-- Second pass of `updateCache`, top level: the loop over `i` on
`(Levels[0], Levels[1])`, with `n` iterations left. -/
def updateCache.demoteTop :
    Nat → List RPeerInfo × List RPeerInfo → Nat → List RPeerInfo × List RPeerInfo
  | 0, st, _ => st
  | n + 1, (l0, l1), i =>
    match l0[i]? with
    | none => (l0, l1)
    | some p =>
      if p.RCount < 90 then
        let q : RPeerInfo := { p with RCount := 50 }
        updateCache.demoteTop n (rpfs (l0.set i q) i, apts l1 q) i
      else updateCache.demoteTop n (l0, l1) (i + 1)

/-- Second pass of `updateCache`, one middle level `l`: the loop over `i` on
`(Levels[l-1], Levels[l], Levels[l+1])`, with `n` iterations left. -/
def updateCache.rebandLevel :
    Nat → List RPeerInfo × List RPeerInfo × List RPeerInfo → Nat →
      List RPeerInfo × List RPeerInfo × List RPeerInfo
  | 0, st, _ => st
  | n + 1, (up, cur, down), i =>
    match cur[i]? with
    | none => (up, cur, down)
    | some p =>
      if p.RCount > 90 then
        updateCache.rebandLevel n (apts up p, rpfs cur i, down) i
      else if p.RCount < 10 then
        let q : RPeerInfo := { p with RCount := 50 }
        updateCache.rebandLevel n (up, rpfs (cur.set i q) i, apts down q) i
      else updateCache.rebandLevel n (up, cur, down) (i + 1)

/-- Second pass of `updateCache`, middle levels: the loop over `l`, `n` levels
left from level `l` on. -/
def updateCache.rebandMid : Nat → PeerCache → Nat → PeerCache
  | 0, cache, _ => cache
  | n + 1, cache, l =>
    let r := updateCache.rebandLevel (cache.Levels.getD l []).length
      (cache.Levels.getD (l - 1) [], cache.Levels.getD l [], cache.Levels.getD (l + 1) []) 0
    updateCache.rebandMid n
      { cache with Levels := ((cache.Levels.set (l - 1) r.1).set l r.2.1).set (l + 1) r.2.2 }
      (l + 1)

/-- Third pass of `updateCache`: sort every level, `n` levels left from level
`l` on. -/
def updateCache.sortLevels (srt : SliceSort) : Nat → PeerCache → Nat → PeerCache
  | 0, cache, _ => cache
  | n + 1, cache, l =>
    updateCache.sortLevels srt n
      { cache with Levels := cache.Levels.set l (srt.run (cache.Levels.getD l [])) } (l + 1)

/-- One sweep `updateCache`: probe pass over all levels, re-banding of level 0
and of the middle levels `1 .. NLevels-2`, emptying of the last level, sort. -/
def updateCache (srt : SliceSort) (env : Env) (cache : PeerCache) : PeerCache :=
  let nLevels := cache.NLevels
  let c1 := (updateCache.firstPass env nLevels 0 cache 0).1
  let t := updateCache.demoteTop (c1.Levels.getD 0 []).length
    (c1.Levels.getD 0 [], c1.Levels.getD 1 []) 0
  let c2 : PeerCache := { c1 with Levels := (c1.Levels.set 0 t.1).set 1 t.2 }
  let c3 := updateCache.rebandMid (usub c2.NLevels 1 - 1) c2 1
  let c4 : PeerCache := { c3 with Levels := c3.Levels.set (usub nLevels 1) [] }
  updateCache.sortLevels srt nLevels c4 0

/-- A cache state reachable from the empty cache of `NewPeerCache` by
`AddPeer`, `RemovePeer` and sweeps with any lookup and ping results. -/
inductive Reachable : PeerCache → Prop
  | init : Reachable NewPeerCache
  | add (c : PeerCache) (p : PeerRequest) : Reachable c → Reachable (AddPeer c p)
  | remove (c : PeerCache) (id : PeerID) (address : String) :
      Reachable c → Reachable (RemovePeer c id address)
  | sweep (srt : SliceSort) (env : Env) (c : PeerCache) :
      Reachable c → Reachable (updateCache srt env c)

/-- An instance of the `sort.Slice` contract: insertion sort by round-trip
time. -/
def insertionSlice : SliceSort where
  run := List.insertionSort (fun a b => a.Info.Perf.RTT ≤ b.Info.Perf.RTT)
  perm := fun s => List.perm_insertionSort _ s
  sorted := fun s => by
    haveI : IsTotal RPeerInfo (fun a b => a.Info.Perf.RTT ≤ b.Info.Perf.RTT) :=
      ⟨fun a b => le_total a.Info.Perf.RTT b.Info.Perf.RTT⟩
    haveI : IsTrans RPeerInfo (fun a b => a.Info.Perf.RTT ≤ b.Info.Perf.RTT) :=
      ⟨fun _ _ _ hab hbc => le_trans hab hbc⟩
    have h := List.sorted_insertionSort (fun a b : RPeerInfo => a.Info.Perf.RTT ≤ b.Info.Perf.RTT) s
    refine List.Pairwise.imp ?_ h
    intro a b hab
    simp [RPeerInfoCompare, PerfIndCompare, hab]

end PCache

/-! ## Regular expressions (the part of Go `regexp` that the reply pattern uses) -/

namespace LCA

open PCache (PeerID PerfInd PeerInfo)

/-- Syntax of the regular expressions used: `^`, `$`, a literal character, a
character range `[lo-hi]`, concatenation and bounded repetition `r{min,max}`. -/
inductive Regex where
  | bol : Regex
  | eol : Regex
  | chr (c : Char) : Regex
  | range (lo hi : Char) : Regex
  | cat (a b : Regex) : Regex
  | rep (r : Regex) (min max : Nat) : Regex

/-- Bounded repetition of a matcher `f`: between `min` and `max` consecutive
matches of `f`, from position `pos` with `s` left to read. -/
def repRun (f : Nat → List Char → List (Nat × List Char)) :
    Nat → Nat → Nat → List Char → List (Nat × List Char)
  | min, 0, pos, s => if min = 0 then [(pos, s)] else []
  | min, max + 1, pos, s =>
    (if min = 0 then [(pos, s)] else []) ++
      (f pos s).flatMap (fun r => repRun f (min - 1) max r.1 r.2)

/-- All the ways in which the expression matches a prefix of the text `s` that
starts at offset `pos` of the whole text: the offsets and texts that are left.
`^` matches at offset 0 only and `$` at the end of the text only (no
multi-line flag). -/
def Regex.run : Regex → Nat → List Char → List (Nat × List Char)
  | Regex.bol, pos, s => if pos = 0 then [(pos, s)] else []
  | Regex.eol, pos, s => if s = [] then [(pos, s)] else []
  | Regex.chr c, pos, s =>
    match s with
    | [] => []
    | x :: t => if x = c then [(pos + 1, t)] else []
  | Regex.range lo hi, pos, s =>
    match s with
    | [] => []
    | x :: t => if lo.toNat ≤ x.toNat ∧ x.toNat ≤ hi.toNat then [(pos + 1, t)] else []
  | Regex.cat a b, pos, s => (a.run pos s).flatMap (fun r => b.run r.1 r.2)
  | Regex.rep r min max, pos, s => repRun (fun p t => r.run p t) min max pos s

/-- Function `regexp.Match`: the expression matches somewhere in the text, that
is, from some start offset. -/
def regexpMatch (r : Regex) (text : String) : Bool :=
  (List.range (text.toList.length + 1)).any
    (fun i => !(r.run i (text.toList.drop i)).isEmpty)

/-! ## Allocation requests (`lca/lca-manager.go`) -/

/-- The pattern `^(?:[0-9]{1,3}\.){3}[0-9]{1,3}:[0-9]{1,5}$` of `requestAlloc`. -/
def addrPattern : Regex :=
  Regex.cat
    (Regex.cat Regex.bol
      (Regex.cat
        (Regex.rep (Regex.cat (Regex.rep (Regex.range '0' '9') 1 3) (Regex.chr '.')) 3 3)
        (Regex.cat (Regex.rep (Regex.range '0' '9') 1 3)
          (Regex.cat (Regex.chr ':') (Regex.rep (Regex.range '0' '9') 1 5)))))
    Regex.eol

/-- Modelled from the spec: the command token `LCAAPCmdStartProgram` is declared
outside the sources; the request line is `START-PROGRAM <service-hash>`. -/
def LCAAPCmdStartProgram : String := "START-PROGRAM"

/-- An opened stream to an allocator, as `requestAlloc` sees it through the
helpers `write` and `read` (declared outside the sources): the error of writing
a line, if any, and the result of reading the reply line after that line was
sent. -/
structure Stream where
  write : String → Option String
  read : String → Except String String

/-- Helper `requestAlloc`: send the command, read one line, check it against
the pattern.  An error stands for the pair `("", err)` of the source.  The
pattern is a constant that compiles, so `regexp.Match` itself reports no
error. -/
def requestAlloc (stream : Stream) (serviceHash : String) : Except String String :=
  let cmd := LCAAPCmdStartProgram ++ " " ++ serviceHash
  match stream.write cmd with
  | some err => Except.error err
  | none =>
    match stream.read cmd with
    | Except.error err => Except.error err
    | Except.ok str =>
      if regexpMatch addrPattern str = true then Except.ok str
      else Except.error "Returned address does not match format"

/-- The overlay host as the allocation path uses it: `NewStream` for the
allocation protocol.  The first argument counts the streams requested before
in the same call, so that the outcome may differ from one attempt to the
next. -/
structure Net where
  NewStream : Nat → PeerID → Except String Stream

/-- The loop of `AllocService` over the ranked peers; `n` streams were
requested before. -/
def AllocService.loop (net : Net) (serviceHash : String) :
    Nat → List PeerInfo → Except String (PeerID × String × PerfInd)
  | _, [] => Except.error "Could not find peer to allocate service"
  | n, p :: ps =>
    match net.NewStream n p.ID with
    | Except.error _ => AllocService.loop net serviceHash (n + 1) ps
    | Except.ok stream =>
      match requestAlloc stream serviceHash with
      | Except.error _ => AllocService.loop net serviceHash (n + 1) ps
      | Except.ok result => Except.ok (p.ID, result, p.Perf)

/-- Operation `AllocService`.  `found` is the outcome of `FindPeers` for the
allocator rendezvous followed by `p2putil.SortPeers`: an error, or the ranked
list of allocators. -/
def AllocService (found : Except String (List PeerInfo)) (net : Net) (serviceHash : String) :
    Except String (PeerID × String × PerfInd) :=
  match found with
  | Except.error err => Except.error err
  | Except.ok peers => AllocService.loop net serviceHash 0 peers

/-- The loop of `AllocBetterService` over the ranked peers; `n` streams were
requested before.  The second component lists the peers for which a stream was
requested, in order. -/
def AllocBetterService.loop (net : Net) (serviceHash : String) (perf : PerfInd) :
    Nat → List PeerInfo → Except String (PeerID × String × PerfInd) × List PeerID
  | _, [] => (Except.error "Could not find peer to allocate service", [])
  | n, p :: ps =>
    if PCache.PerfIndCompare perf p.Perf = true then
      (Except.error "Could not find better service", [])
    else
      match net.NewStream n p.ID with
      | Except.error _ =>
        let r := AllocBetterService.loop net serviceHash perf (n + 1) ps
        (r.1, p.ID :: r.2)
      | Except.ok stream =>
        match requestAlloc stream serviceHash with
        | Except.error _ =>
          let r := AllocBetterService.loop net serviceHash perf (n + 1) ps
          (r.1, p.ID :: r.2)
        | Except.ok result => (Except.ok (p.ID, result, p.Perf), [p.ID])

/-- Operation `AllocBetterService`, documented as requesting allocation on
allocators "with performance better than `perf`".  `found` is the outcome of
`FindPeers` followed by `p2putil.SortPeers`. -/
def AllocBetterService (found : Except String (List PeerInfo)) (net : Net)
    (serviceHash : String) (perf : PerfInd) :
    Except String (PeerID × String × PerfInd) × List PeerID :=
  match found with
  | Except.error err => (Except.error err, [])
  | Except.ok peers => AllocBetterService.loop net serviceHash perf 0 peers

/-! ## Request forwarding (`RequestHandler`) -/

/-- The loop of `strings.SplitN` for a one-character separator: at most `k`
more cuts at the separator, the rest of the text being the last piece. -/
def SplitN.pieces (sep : Char) : Nat → List Char → List (List Char)
  | 0, s => [s]
  | k + 1, s =>
    match s.span (fun c => decide (c ≠ sep)) with
    | (_, []) => [s]
    | (piece, _ :: rest) => piece :: SplitN.pieces sep k rest

/-- Function `strings.SplitN` for a one-character separator and a count
`n ≥ 0`: at most `n` pieces, the last one the unsplit remainder; no piece for
`n = 0`. -/
def SplitN (s : List Char) (sep : Char) (n : Nat) : List (List Char) :=
  match n with
  | 0 => []
  | k + 1 => SplitN.pieces sep k s

/-- The URL rewrite of `RequestHandler`: the string given to `req.URL.Parse`,
built from the address of the local service and the request URI
(`req.URL.RequestURI()`, which, as the source notes, includes path and
query). -/
def RequestHandler.targetURL (address : String) (requestURI : String) : String :=
  let tokens := SplitN requestURI.toList '/' 3
  let arguments := if tokens.length = 3 then String.mk (tokens.getD 2 []) else ""
  "http://" ++ address ++ "/" ++ arguments

end LCA

/-! ## Auxiliary definitions for the statements -/

namespace PCache

/-- What the first pass does to a record `p` probed as probe number `k`:
`none` when the record is removed, otherwise the record as it is left in its
level. -/
def probeOne (env : Env) (k : Nat) (p : RPeerInfo) : Option RPeerInfo :=
  let servInfo := env.GetOrRequestService k p.Info.ServName
  let perf : PerfInd := { RTT := env.Ping k p.Info.ID }
  if env.Ping k p.Info.ID = 0 ∨ PerfIndCompare servInfo.NetworkHardReq perf = true then none
  else if PerfIndCompare servInfo.NetworkSoftReq perf = true then
    some { p with
      Info := { p.Info with Perf := perf }
      RCount := if p.RCount < 10 then 0 else p.RCount - 10 }
  else
    some { p with
      Info := { p.Info with Perf := perf }
      RCount := if p.RCount < 100 then p.RCount + 1 else p.RCount }

/-- The record with its counter reset to 50, as on a demotion. -/
def reset50 (p : RPeerInfo) : RPeerInfo := { p with RCount := 50 }

/-- A level `b` after the first pass of a sweep, `k` probes having been made
before the level. -/
def probed (env : Env) (k : Nat) (b : List RPeerInfo) : List RPeerInfo :=
  (updateCache.probeLevel env b.length k b 0).1

/-- The probes that the first pass makes on a level `b`, in order, `k` probes
having been made before the level: the number of the probe and the record
probed. -/
def levelProbes (env : Env) (k : Nat) (b : List RPeerInfo) : List (Nat × RPeerInfo) :=
  (updateCache.probeLevel env b.length k b 0).2

/-- The probes of one sweep of a cache, in order. -/
def sweepProbes (env : Env) (cache : PeerCache) : List (Nat × RPeerInfo) :=
  (updateCache.firstPass env cache.NLevels 0 cache 0).2

/-- The records that a list of probes leaves behind. -/
def results (env : Env) (pr : List (Nat × RPeerInfo)) : List RPeerInfo :=
  pr.filterMap (fun kp => probeOne env kp.1 kp.2)

/-- Levels 0 and 1 of a three-level cache after the first pass and the
re-banding of level 0. -/
def demoted (env : Env) (b0 b1 : List RPeerInfo) : List RPeerInfo × List RPeerInfo :=
  updateCache.demoteTop (probed env 0 b0).length
    (probed env 0 b0, probed env b0.length b1) 0

/-- The three levels of a three-level cache after the first and the second
pass of a sweep. -/
def rebanded (env : Env) (b0 b1 b2 : List RPeerInfo) :
    List RPeerInfo × List RPeerInfo × List RPeerInfo :=
  updateCache.rebandLevel (demoted env b0 b1).2.length
    ((demoted env b0 b1).1, (demoted env b0 b1).2,
      probed env (b0.length + b1.length) b2) 0

/-! ## Concrete data for the examples -/

/-- An environment in which every lookup yields the requirement 50 (hard) and
20 (soft) and the peers `a`, `b`, `c` answer every ping in 1, 2 and 3, every
other peer in 5. -/
def sampleEnv : Env where
  GetOrRequestService := fun _ _ =>
    { NetworkHardReq := { RTT := 50 }, NetworkSoftReq := { RTT := 20 } }
  Ping := fun _ id => if id = "a" then 1 else if id = "b" then 2 else if id = "c" then 3 else 5

/-- An environment in which every lookup yields the requirement 50 (hard) and
20 (soft) and the answer to a ping depends on the probe only: the first probe
of the sweep gets no answer (rtt 0, a hard fail), the second takes 30 (a soft
fail), every later one takes 5 (a pass). -/
def mixedEnv : Env where
  GetOrRequestService := fun _ _ =>
    { NetworkHardReq := { RTT := 50 }, NetworkSoftReq := { RTT := 20 } }
  Ping := fun k _ => if k = 0 then 0 else if k = 1 then 30 else 5

/-- A level with one record of peer `a`, counter 92. -/
def mixedLevel0 : List RPeerInfo :=
  [⟨92, ⟨⟨4⟩, "a", "sx"⟩, "x", "10.0.0.1:80"⟩]

/-- A level with two equal records of peer `b`, counter 50, and a record of
peer `c` with counter 5. -/
def mixedLevel1 : List RPeerInfo :=
  [⟨50, ⟨⟨7⟩, "b", "sh"⟩, "h", "10.0.0.2:80"⟩,
    ⟨50, ⟨⟨7⟩, "b", "sh"⟩, "h", "10.0.0.2:80"⟩,
    ⟨5, ⟨⟨9⟩, "c", "sh"⟩, "h", "10.0.0.3:80"⟩]

/-- The three-level cache with the levels `mixedLevel0`, `mixedLevel1` and an
empty last level.  Under `mixedEnv` the record of `a` hard-fails, the first
record of `b` soft-fails, the second passes, and the record of `c` passes with
a counter that stays below 10. -/
def mixedCache : PeerCache := ⟨3, [mixedLevel0, mixedLevel1, []], 3⟩

/-- The cache after adding peers `a` (service `x`), `b` and `c` (service `h`),
one sweep under `sampleEnv`, and the removal of `a`. -/
def unsortedCache : PeerCache :=
  RemovePeer
    (updateCache insertionSlice sampleEnv
      (AddPeer
        (AddPeer
          (AddPeer NewPeerCache
            { ID := "a", ServName := "sx", Hash := "x", Address := "10.0.0.1:80" })
          { ID := "b", ServName := "sh", Hash := "h", Address := "10.0.0.2:80" })
        { ID := "c", ServName := "sh", Hash := "h", Address := "10.0.0.3:80" }))
    "a" "10.0.0.1:80"

/-- The cache after adding peers `b` and `c` (service `h`) and one sweep under
`sampleEnv`. -/
def sortedCache : PeerCache :=
  updateCache insertionSlice sampleEnv
    (AddPeer
      (AddPeer NewPeerCache
        { ID := "c", ServName := "sh", Hash := "h", Address := "10.0.0.3:80" })
      { ID := "b", ServName := "sh", Hash := "h", Address := "10.0.0.2:80" })

/-- The probe rule in the words of the specification: a hard fail
(`rtt == 0` or `rtt > rtt-hard`) removes the record; a soft fail
(`rtt > rtt-soft`) stores the rtt and penalizes the counter by 10, saturating
at 0; a pass stores the rtt and increments the counter by 1, saturating at
100.  The rtt and the requirement are those of the probe number `k`, the probe
of the record. -/
def specProbe (env : Env) (k : Nat) (p : RPeerInfo) : Option RPeerInfo :=
  let req := env.GetOrRequestService k p.Info.ServName
  let rtt := env.Ping k p.Info.ID
  if rtt = 0 ∨ rtt > req.NetworkHardReq.RTT then none
  else if rtt > req.NetworkSoftReq.RTT then
    some { p with Info := { p.Info with Perf := { RTT := rtt } }, RCount := max (p.RCount - 10) 0 }
  else
    some { p with Info := { p.Info with Perf := { RTT := rtt } }, RCount := min (p.RCount + 1) 100 }

/-- Invariant I1: every record of every level has a counter of at most 100
(the counter is unsigned, so it is at least 0). -/
def RCountBounded (c : PeerCache) : Prop :=
  ∀ b ∈ c.Levels, ∀ p ∈ b, p.RCount ≤ 100

instance (c : PeerCache) : Decidable (RCountBounded c) := by
  unfold RCountBounded
  infer_instance

/-- An environment in which every lookup yields the requirement 50 (hard) and
20 (soft) and every ping takes 30: every probe is a soft fail. -/
def softFailEnv : Env where
  GetOrRequestService := fun _ _ =>
    { NetworkHardReq := { RTT := 50 }, NetworkSoftReq := { RTT := 20 } }
  Ping := fun _ _ => 30

/-- Consecutive sweeps: `sweepN srt envs k c` is the cache after `k` sweeps of
`c`, the sweep number `n + 1` running under the environment `envs n`. -/
def sweepN (srt : SliceSort) (envs : Nat → Env) : Nat → PeerCache → PeerCache
  | 0, c => c
  | k + 1, c => updateCache srt (envs k) (sweepN srt envs k c)

/-- The record `p` with the round-trip time `rtt` and the counter `c`. -/
def stamped (p : RPeerInfo) (rtt : Int) (c : Nat) : RPeerInfo :=
  { p with Info := { p.Info with Perf := { RTT := rtt } }, RCount := c }

/-- The identity of a record: peer-id, service hash and address. -/
def ident (p : RPeerInfo) : PeerID × String × String := (p.Info.ID, p.Hash, p.Address)

/-- A hard fail in the words of the specification: `rtt == 0` or
`rtt > rtt-hard`, for the rtt and the requirement of the probe number `k`. -/
def hardFails (env : Env) (k : Nat) (p : RPeerInfo) : Bool :=
  decide (env.Ping k p.Info.ID = 0 ∨
    env.Ping k p.Info.ID > (env.GetOrRequestService k p.Info.ServName).NetworkHardReq.RTT)

/-- The counter of a record after a probe that is not a hard fail, in the words
of the specification: penalized by 10 (saturating at 0) on a soft fail,
incremented by 1 (saturating at 100) on a pass. -/
def countAfterProbe (env : Env) (k : Nat) (p : RPeerInfo) : Nat :=
  if env.Ping k p.Info.ID >
      (env.GetOrRequestService k p.Info.ServName).NetworkSoftReq.RTT then
    max (p.RCount - 10) 0
  else min (p.RCount + 1) 100

/-- An environment in which the registry lookup yields the zero requirement for
every service name, as after a failed lookup, and every ping takes 5. -/
def zeroReqEnv : Env where
  GetOrRequestService := fun _ _ =>
    { NetworkHardReq := { RTT := 0 }, NetworkSoftReq := { RTT := 0 } }
  Ping := fun _ _ => 5

/-- An environment in which the registry lookup fails for the service name
`sh`, so that the sweep goes on with the zero requirement for its records, and
yields the requirement 50 (hard) and 20 (soft) for every other name; every
ping takes 5. -/
def lookupFailsEnv : Env where
  GetOrRequestService := fun _ name =>
    if name = "sh" then { NetworkHardReq := { RTT := 0 }, NetworkSoftReq := { RTT := 0 } }
    else { NetworkHardReq := { RTT := 50 }, NetworkSoftReq := { RTT := 20 } }
  Ping := fun _ _ => 5

end PCache

namespace LCA

open PCache (PeerID PerfInd PeerInfo)

/-- A group of `lo` to `hi` ASCII decimal digits. -/
def IsDigits (lo hi : Nat) (w : List Char) : Prop :=
  lo ≤ w.length ∧ w.length ≤ hi ∧ ∀ c ∈ w, c.isDigit = true

/-- The reply grammar in the words of the specification: the whole line is four
groups of 1 to 3 ASCII decimal digits separated by single `.` characters,
followed by `:` and 1 to 5 ASCII decimal digits. -/
def DottedQuadPort (s : String) : Prop :=
  ∃ a b c d p : List Char,
    IsDigits 1 3 a ∧ IsDigits 1 3 b ∧ IsDigits 1 3 c ∧ IsDigits 1 3 d ∧ IsDigits 1 5 p ∧
      s.toList = a ++ '.' :: (b ++ '.' :: (c ++ '.' :: (d ++ ':' :: p)))

/-- A matcher `f` recognises the language `L`: its results from `(pos, s)` are
exactly the splits of `s` into a word of `L` and the rest, the offset advanced
by the length of the word. -/
def Recognises (f : Nat → List Char → List (Nat × List Char)) (L : List Char → Prop) : Prop :=
  ∀ (pos : Nat) (s : List Char) (pos' : Nat) (t : List Char),
    (pos', t) ∈ f pos s ↔ ∃ w, L w ∧ s = w ++ t ∧ pos' = pos + w.length

/-- A candidate succeeds, in the words of the specification: its stream opens,
the command is written, a reply line is read, and the reply matches the
dotted-quad grammar.  `i` is the position of the candidate in the ranked
list. -/
def CandidateSucceeds (net : Net) (serviceHash : String) (i : Nat) (p : PeerInfo)
    (reply : String) : Prop :=
  ∃ stream : Stream, net.NewStream i p.ID = Except.ok stream ∧
    stream.write (LCAAPCmdStartProgram ++ " " ++ serviceHash) = none ∧
    stream.read (LCAAPCmdStartProgram ++ " " ++ serviceHash) = Except.ok reply ∧
    DottedQuadPort reply

/-- The outcome of one iteration of the loop of `AllocService`: the reply, or
`none` when the loop goes on to the next peer. -/
def attempt (net : Net) (serviceHash : String) (n : Nat) (p : PeerInfo) : Option String :=
  match net.NewStream n p.ID with
  | Except.error _ => none
  | Except.ok stream =>
    match requestAlloc stream serviceHash with
    | Except.error _ => none
    | Except.ok result => some result

/-- A stream on which the write succeeds and the given line is read. -/
def replyStream (line : String) : Stream where
  write := fun _ => none
  read := fun _ => Except.ok line

/-- A network of the allocators `A1` and `A2` of scenario 4 of the
specification: `A2` replies `not-an-address`, `A1` replies
`192.168.1.6:9001`, no other peer can be reached. -/
def scenarioNet : Net where
  NewStream := fun _ id =>
    if id = "A2" then Except.ok (replyStream "not-an-address")
    else if id = "A1" then Except.ok (replyStream "192.168.1.6:9001")
    else Except.error "no route"

end LCA

/-! ## Lemmas on the slice helpers -/

namespace PCache

theorem usub_eq_mod (a b : Nat) (ha : a < 18446744073709551616)
    (hb : b < 18446744073709551616) :
    usub a b = (a + 18446744073709551616 - b) % 18446744073709551616 := by
  unfold usub
  split_ifs with h <;> omega

theorem usub_three_one : usub 3 1 = 2 := by decide

theorem usub_three_two : usub 3 2 = 1 := by decide

theorem set_split {α : Type} (s : List α) (i : Nat) (q : α) (h : i < s.length) :
    s.set i q = s.take i ++ q :: s.drop (i + 1) := by
  rw [List.set_eq_take_append_cons_drop, if_pos h]

theorem take_set_self {α : Type} (s : List α) (i : Nat) (q : α) (h : i < s.length) :
    (s.set i q).take i = s.take i := by
  rw [set_split s i q h]
  exact List.take_left' (by simp; omega)

theorem drop_set_self {α : Type} (s : List α) (i : Nat) (q : α) (h : i < s.length) :
    (s.set i q).drop i = q :: s.drop (i + 1) := by
  rw [set_split s i q h]
  exact List.drop_left' (by simp; omega)

theorem take_succ_set {α : Type} (s : List α) (i : Nat) (q : α) (h : i < s.length) :
    (s.set i q).take (i + 1) = s.take i ++ [q] := by
  have hlen : i < (s.set i q).length := by simpa using h
  rw [List.take_succ, take_set_self s i q h, List.getElem?_eq_getElem hlen]
  simp

theorem drop_succ_set {α : Type} (s : List α) (i : Nat) (q : α) :
    (s.set i q).drop (i + 1) = s.drop (i + 1) :=
  List.drop_set_of_lt q s (Nat.lt_succ_self i)

theorem drop_split {α : Type} (s : List α) (i : Nat) (p : α) (h : s[i]? = some p) :
    s.drop i = p :: s.drop (i + 1) := by
  obtain ⟨hlt, hp⟩ := List.getElem?_eq_some_iff.mp h
  rw [List.drop_eq_getElem_cons hlt, hp]

theorem rpfs_concat_lt (d : List RPeerInfo) (l : RPeerInfo) (i : Nat) (h : i < d.length) :
    rpfs (d ++ [l]) i = d.set i l := by
  have h1 : (d ++ [l])[i]? = some d[i] := by
    rw [List.getElem?_append_left h, List.getElem?_eq_getElem h]
  simp only [rpfs, List.getLast?_append, List.getLast?_singleton, h1]
  simp [List.set_append, h]

theorem rpfs_concat_eq (d : List RPeerInfo) (l : RPeerInfo) :
    rpfs (d ++ [l]) d.length = d := by
  simp [rpfs, List.set_append]

theorem rpfs_cases (s : List RPeerInfo) (i : Nat) (h : i < s.length) :
    ∃ d l, s = d ++ [l] ∧
      ((i < d.length ∧ rpfs s i = d.set i l) ∨ (i = d.length ∧ rpfs s i = d)) := by
  rcases List.eq_nil_or_concat' s with hs | ⟨d, l, hs⟩
  · subst hs; exact absurd h (by simp)
  · subst hs
    refine ⟨d, l, rfl, ?_⟩
    simp only [List.length_append, List.length_singleton] at h
    rcases Nat.lt_or_ge i d.length with hi | hi
    · exact Or.inl ⟨hi, rpfs_concat_lt d l i hi⟩
    · have hid : i = d.length := by omega
      subst hid
      exact Or.inr ⟨rfl, rpfs_concat_eq d l⟩

theorem rpfs_length (s : List RPeerInfo) (i : Nat) (h : i < s.length) :
    (rpfs s i).length = s.length - 1 := by
  obtain ⟨d, l, rfl, ⟨hi, hr⟩ | ⟨hi, hr⟩⟩ := rpfs_cases s i h <;> simp [hr]

theorem rpfs_take (s : List RPeerInfo) (i : Nat) (h : i < s.length) :
    (rpfs s i).take i = s.take i := by
  obtain ⟨d, l, rfl, ⟨hi, hr⟩ | ⟨hi, hr⟩⟩ := rpfs_cases s i h
  · rw [hr, List.take_append_of_le_length (Nat.le_of_lt hi), take_set_self d i l hi]
  · subst hi
    rw [hr]; simp

theorem rpfs_drop_perm (s : List RPeerInfo) (i : Nat) (h : i < s.length) :
    List.Perm ((rpfs s i).drop i) (s.drop (i + 1)) := by
  obtain ⟨d, l, rfl, ⟨hi, hr⟩ | ⟨hi, hr⟩⟩ := rpfs_cases s i h
  · rw [hr, List.drop_append_of_le_length (by omega), drop_set_self d i l hi]
    exact (List.perm_append_singleton l (List.drop (i + 1) d)).symm
  · subst hi
    rw [hr]; simp

theorem rpfs_perm_eraseIdx (s : List RPeerInfo) (i : Nat) (h : i < s.length) :
    List.Perm (rpfs s i) (s.eraseIdx i) := by
  rw [List.eraseIdx_eq_take_drop_succ, ← List.take_append_drop i (rpfs s i), rpfs_take s i h]
  exact List.Perm.append_left _ (rpfs_drop_perm s i h)

/-! ## The loops of the sweep -/

theorem probeLevel_step (env : Env) (n k : Nat) (s : List RPeerInfo) (i : Nat) (p : RPeerInfo)
    (h : s[i]? = some p) :
    updateCache.probeLevel env (n + 1) k s i =
      match probeOne env k p with
      | none =>
        ((updateCache.probeLevel env n (k + 1) (rpfs s i) i).1,
          (k, p) :: (updateCache.probeLevel env n (k + 1) (rpfs s i) i).2)
      | some q =>
        ((updateCache.probeLevel env n (k + 1) (s.set i q) (i + 1)).1,
          (k, p) :: (updateCache.probeLevel env n (k + 1) (s.set i q) (i + 1)).2) := by
  simp only [updateCache.probeLevel, h, probeOne]
  split_ifs <;> rfl

/-- The probe loop on one level: the level it leaves is, up to order, the
untouched front followed by the results of its probes; the records probed are,
up to order, the records from position `i` on; the probes are numbered
consecutively from `k`. -/
theorem probeLevel_inv (env : Env) (n : Nat) :
    ∀ (k : Nat) (s : List RPeerInfo) (i : Nat), s.length - i ≤ n →
      List.Perm (updateCache.probeLevel env n k s i).1
          (s.take i ++ results env (updateCache.probeLevel env n k s i).2) ∧
        List.Perm ((updateCache.probeLevel env n k s i).2.map Prod.snd) (s.drop i) ∧
        (updateCache.probeLevel env n k s i).2.map Prod.fst = List.range' k (s.length - i) := by
  induction n with
  | zero =>
    intro k s i h
    have hd : s.drop i = [] := List.drop_eq_nil_of_le (by omega)
    have ht : s.take i = s := List.take_of_length_le (by omega)
    have hz : s.length - i = 0 := by omega
    simp [updateCache.probeLevel, hd, ht, hz, results]
  | succ n ih =>
    intro k s i h
    cases hp : s[i]? with
    | none =>
      have hle : s.length ≤ i := List.getElem?_eq_none_iff.mp hp
      have hd : s.drop i = [] := List.drop_eq_nil_of_le hle
      have ht : s.take i = s := List.take_of_length_le hle
      have hz : s.length - i = 0 := by omega
      simp [updateCache.probeLevel, hp, hd, ht, hz, results]
    | some p =>
      have hlt : i < s.length := (List.getElem?_eq_some_iff.mp hp).1
      have hlen : s.length - i = (s.length - i - 1) + 1 := by omega
      rw [probeLevel_step env n k s i p hp, drop_split s i p hp, hlen, List.range'_succ]
      cases hq : probeOne env k p with
      | none =>
        obtain ⟨h1, h2, h3⟩ := ih (k + 1) (rpfs s i) i (by rw [rpfs_length s i hlt]; omega)
        rw [rpfs_take s i hlt] at h1
        rw [rpfs_length s i hlt] at h3
        refine ⟨?_, ?_, ?_⟩
        · simpa [results, hq] using h1
        · simpa using List.Perm.cons p (h2.trans (rpfs_drop_perm s i hlt))
        · simp only [List.map_cons, h3]
          congr 2
          omega
      | some q =>
        obtain ⟨h1, h2, h3⟩ := ih (k + 1) (s.set i q) (i + 1) (by simp; omega)
        rw [take_succ_set s i q hlt] at h1
        rw [drop_succ_set] at h2
        rw [List.length_set] at h3
        refine ⟨?_, ?_, ?_⟩
        · simpa [results, hq] using h1
        · simpa using List.Perm.cons p h2
        · simp only [List.map_cons, h3]
          congr 2

theorem demoteTop_inv (n : Nat) :
    ∀ (l0 l1 : List RPeerInfo) (i : Nat), l0.length - i ≤ n →
      List.Perm (updateCache.demoteTop n (l0, l1) i).1
          (l0.take i ++ (l0.drop i).filter (fun p => decide (90 ≤ p.RCount))) ∧
        List.Perm (updateCache.demoteTop n (l0, l1) i).2
          (l1 ++ ((l0.drop i).filter (fun p => decide (p.RCount < 90))).map reset50) := by
  induction n with
  | zero =>
    intro l0 l1 i h
    have hd : l0.drop i = [] := List.drop_eq_nil_of_le (by omega)
    have ht : l0.take i = l0 := List.take_of_length_le (by omega)
    simp [updateCache.demoteTop, hd, ht]
  | succ n ih =>
    intro l0 l1 i h
    cases hp : l0[i]? with
    | none =>
      have hle : l0.length ≤ i := List.getElem?_eq_none_iff.mp hp
      have hd : l0.drop i = [] := List.drop_eq_nil_of_le hle
      have ht : l0.take i = l0 := List.take_of_length_le hle
      simp [updateCache.demoteTop, hp, hd, ht]
    | some p =>
      have hlt : i < l0.length := (List.getElem?_eq_some_iff.mp hp).1
      rw [drop_split l0 i p hp]
      by_cases hc : p.RCount < 90
      · have hlt2 : i < (l0.set i (reset50 p)).length := by simpa using hlt
        obtain ⟨h1, h2⟩ := ih (rpfs (l0.set i (reset50 p)) i) (apts l1 (reset50 p)) i
          (by rw [rpfs_length _ i hlt2]; simp; omega)
        rw [rpfs_take _ i hlt2, take_set_self l0 i _ hlt] at h1
        have hdrop := (rpfs_drop_perm _ i hlt2).trans
          (List.Perm.of_eq (drop_succ_set l0 i (reset50 p)))
        have hstep : updateCache.demoteTop (n + 1) (l0, l1) i =
            updateCache.demoteTop n (rpfs (l0.set i (reset50 p)) i, apts l1 (reset50 p)) i := by
          simp [updateCache.demoteTop, hp, hc, reset50]
        rw [hstep]
        have hnc : ¬ 90 ≤ p.RCount := by omega
        constructor
        · simp only [List.filter_cons, hnc, decide_False, Bool.false_eq_true, if_false]
          exact h1.trans (List.Perm.append_left _ (hdrop.filter _))
        · simp only [List.filter_cons, hc, decide_True, if_true, List.map_cons]
          refine h2.trans ?_
          simp only [apts, List.append_assoc, List.singleton_append]
          exact List.Perm.append_left _ (List.Perm.cons _ ((hdrop.filter _).map _))
      · obtain ⟨h1, h2⟩ := ih l0 l1 (i + 1) (by omega)
        have hstep : updateCache.demoteTop (n + 1) (l0, l1) i =
            updateCache.demoteTop n (l0, l1) (i + 1) := by
          simp [updateCache.demoteTop, hp, hc]
        rw [hstep]
        have hnc : 90 ≤ p.RCount := by omega
        constructor
        · simp only [List.filter_cons, hnc, decide_True, if_true]
          rw [List.take_succ, hp] at h1
          simpa using h1
        · simp only [List.filter_cons, hc, decide_False, Bool.false_eq_true, if_false]
          exact h2

theorem rebandLevel_inv (n : Nat) :
    ∀ (up cur down : List RPeerInfo) (i : Nat), cur.length - i ≤ n →
      List.Perm (updateCache.rebandLevel n (up, cur, down) i).1
          (up ++ (cur.drop i).filter (fun p => decide (90 < p.RCount))) ∧
        List.Perm (updateCache.rebandLevel n (up, cur, down) i).2.1
          (cur.take i ++
            (cur.drop i).filter (fun p => decide (10 ≤ p.RCount ∧ p.RCount ≤ 90))) ∧
        List.Perm (updateCache.rebandLevel n (up, cur, down) i).2.2
          (down ++ ((cur.drop i).filter (fun p => decide (p.RCount < 10))).map reset50) := by
  induction n with
  | zero =>
    intro up cur down i h
    have hd : cur.drop i = [] := List.drop_eq_nil_of_le (by omega)
    have ht : cur.take i = cur := List.take_of_length_le (by omega)
    simp [updateCache.rebandLevel, hd, ht]
  | succ n ih =>
    intro up cur down i h
    cases hp : cur[i]? with
    | none =>
      have hle : cur.length ≤ i := List.getElem?_eq_none_iff.mp hp
      have hd : cur.drop i = [] := List.drop_eq_nil_of_le hle
      have ht : cur.take i = cur := List.take_of_length_le hle
      simp [updateCache.rebandLevel, hp, hd, ht]
    | some p =>
      have hlt : i < cur.length := (List.getElem?_eq_some_iff.mp hp).1
      rw [drop_split cur i p hp]
      by_cases hc : 90 < p.RCount
      · obtain ⟨h1, h2, h3⟩ := ih (apts up p) (rpfs cur i) down i
          (by rw [rpfs_length _ i hlt]; omega)
        rw [rpfs_take _ i hlt] at h2
        have hdrop := rpfs_drop_perm cur i hlt
        have hstep : updateCache.rebandLevel (n + 1) (up, cur, down) i =
            updateCache.rebandLevel n (apts up p, rpfs cur i, down) i := by
          simp [updateCache.rebandLevel, hp, hc]
        rw [hstep]
        have hn1 : ¬ (10 ≤ p.RCount ∧ p.RCount ≤ 90) := by omega
        have hn2 : ¬ p.RCount < 10 := by omega
        refine ⟨?_, ?_, ?_⟩
        · simp only [List.filter_cons, hc, decide_True, if_true]
          refine h1.trans ?_
          simp only [apts, List.append_assoc, List.singleton_append]
          exact List.Perm.append_left _ (List.Perm.cons _ (hdrop.filter _))
        · simp only [List.filter_cons, hn1, decide_False, Bool.false_eq_true, if_false]
          exact h2.trans (List.Perm.append_left _ (hdrop.filter _))
        · simp only [List.filter_cons, hn2, decide_False, Bool.false_eq_true, if_false]
          exact h3.trans (List.Perm.append_left _ ((hdrop.filter _).map _))
      · by_cases hc2 : p.RCount < 10
        · have hlt2 : i < (cur.set i (reset50 p)).length := by simpa using hlt
          obtain ⟨h1, h2, h3⟩ := ih up (rpfs (cur.set i (reset50 p)) i)
            (apts down (reset50 p)) i (by rw [rpfs_length _ i hlt2]; simp; omega)
          rw [rpfs_take _ i hlt2, take_set_self cur i _ hlt] at h2
          have hdrop := (rpfs_drop_perm _ i hlt2).trans
            (List.Perm.of_eq (drop_succ_set cur i (reset50 p)))
          have hstep : updateCache.rebandLevel (n + 1) (up, cur, down) i =
              updateCache.rebandLevel n
                (up, rpfs (cur.set i (reset50 p)) i, apts down (reset50 p)) i := by
            simp [updateCache.rebandLevel, hp, hc, hc2, reset50]
          rw [hstep]
          have hn1 : ¬ (10 ≤ p.RCount ∧ p.RCount ≤ 90) := by omega
          refine ⟨?_, ?_, ?_⟩
          · simp only [List.filter_cons, hc, decide_False, Bool.false_eq_true, if_false]
            exact h1.trans (List.Perm.append_left _ (hdrop.filter _))
          · simp only [List.filter_cons, hn1, decide_False, Bool.false_eq_true, if_false]
            exact h2.trans (List.Perm.append_left _ (hdrop.filter _))
          · simp only [List.filter_cons, hc2, decide_True, if_true, List.map_cons]
            refine h3.trans ?_
            simp only [apts, List.append_assoc, List.singleton_append]
            exact List.Perm.append_left _ (List.Perm.cons _ ((hdrop.filter _).map _))
        · obtain ⟨h1, h2, h3⟩ := ih up cur down (i + 1) (by omega)
          have hstep : updateCache.rebandLevel (n + 1) (up, cur, down) i =
              updateCache.rebandLevel n (up, cur, down) (i + 1) := by
            simp [updateCache.rebandLevel, hp, hc, hc2]
          rw [hstep]
          have hn1 : 10 ≤ p.RCount ∧ p.RCount ≤ 90 := by omega
          refine ⟨?_, ?_, ?_⟩
          · simp only [List.filter_cons, hc, decide_False, Bool.false_eq_true, if_false]
            exact h1
          · simp only [List.filter_cons, hn1, and_self, decide_True, if_true]
            rw [List.take_succ, hp] at h2
            simpa using h2
          · simp only [List.filter_cons, hc2, decide_False, Bool.false_eq_true, if_false]
            exact h3

/-! ## The sweep on a three-level cache -/

theorem levelProbes_records (env : Env) (k : Nat) (b : List RPeerInfo) :
    List.Perm ((levelProbes env k b).map Prod.snd) b := by
  have h := (probeLevel_inv env b.length k b 0 (by omega)).2.1
  simpa [levelProbes] using h

theorem levelProbes_calls (env : Env) (k : Nat) (b : List RPeerInfo) :
    (levelProbes env k b).map Prod.fst = List.range' k b.length := by
  have h := (probeLevel_inv env b.length k b 0 (by omega)).2.2
  simpa [levelProbes] using h

theorem levelProbes_length (env : Env) (k : Nat) (b : List RPeerInfo) :
    (levelProbes env k b).length = b.length := by
  have h := (levelProbes_records env k b).length_eq
  simpa using h

theorem probed_perm (env : Env) (k : Nat) (b : List RPeerInfo) :
    List.Perm (probed env k b) (results env (levelProbes env k b)) := by
  have h := (probeLevel_inv env b.length k b 0 (by omega)).1
  simpa [probed, levelProbes] using h

theorem levelProbes_mem (env : Env) (k : Nat) (b : List RPeerInfo) (kp : Nat × RPeerInfo)
    (h : kp ∈ levelProbes env k b) : kp.2 ∈ b ∧ k ≤ kp.1 ∧ kp.1 < k + b.length := by
  constructor
  · exact (levelProbes_records env k b).mem_iff.mp (List.mem_map_of_mem Prod.snd h)
  · have hm : kp.1 ∈ List.range' k b.length := by
      rw [← levelProbes_calls env k b]
      exact List.mem_map_of_mem Prod.fst h
    have := List.mem_range'_1.mp hm
    omega

theorem levelProbes_of_mem (env : Env) (k : Nat) (b : List RPeerInfo) (p : RPeerInfo)
    (h : p ∈ b) : ∃ j : Nat, (j, p) ∈ levelProbes env k b := by
  have hm := (levelProbes_records env k b).mem_iff.mpr h
  obtain ⟨kp, hkp, rfl⟩ := List.mem_map.mp hm
  exact ⟨kp.1, hkp⟩

theorem firstPass_three (env : Env) (b0 b1 b2 : List RPeerInfo) (rmax : Nat) :
    (updateCache.firstPass env 3 0 ⟨3, [b0, b1, b2], rmax⟩ 0).1 =
      ⟨3, [probed env 0 b0, probed env b0.length b1,
        probed env (b0.length + b1.length) b2], rmax⟩ := by
  have l0 := levelProbes_length env 0 b0
  have l1 := levelProbes_length env b0.length b1
  simp only [levelProbes] at l0 l1
  simp [updateCache.firstPass, probed, l0, l1]

theorem sweepProbes_three (env : Env) (b0 b1 b2 : List RPeerInfo) (rmax : Nat) :
    sweepProbes env ⟨3, [b0, b1, b2], rmax⟩ =
      levelProbes env 0 b0 ++
        (levelProbes env b0.length b1 ++ levelProbes env (b0.length + b1.length) b2) := by
  have l0 := levelProbes_length env 0 b0
  have l1 := levelProbes_length env b0.length b1
  simp only [levelProbes] at l0 l1
  simp [sweepProbes, updateCache.firstPass, levelProbes, l0, l1]

theorem rebandMid_three (a b c : List RPeerInfo) (rmax : Nat) :
    updateCache.rebandMid 1 ⟨3, [a, b, c], rmax⟩ 1 =
      ⟨3, [(updateCache.rebandLevel b.length (a, b, c) 0).1,
        (updateCache.rebandLevel b.length (a, b, c) 0).2.1,
        (updateCache.rebandLevel b.length (a, b, c) 0).2.2], rmax⟩ := by
  simp [updateCache.rebandMid]

theorem sortLevels_three (srt : SliceSort) (a b c : List RPeerInfo) (rmax : Nat) :
    updateCache.sortLevels srt 3 ⟨3, [a, b, c], rmax⟩ 0 =
      ⟨3, [srt.run a, srt.run b, srt.run c], rmax⟩ := by
  simp [updateCache.sortLevels]

theorem sort_nil (srt : SliceSort) : srt.run [] = [] :=
  List.Perm.eq_nil (srt.perm [])

theorem updateCache_three (srt : SliceSort) (env : Env) (b0 b1 b2 : List RPeerInfo)
    (rmax : Nat) :
    updateCache srt env ⟨3, [b0, b1, b2], rmax⟩ =
      ⟨3, [srt.run (rebanded env b0 b1 b2).1, srt.run (rebanded env b0 b1 b2).2.1, []],
        rmax⟩ := by
  unfold updateCache
  simp only [firstPass_three, usub_three_one, Nat.add_one_sub_one, List.getD_cons_zero,
    List.getD_cons_succ, List.set_cons_zero, List.set_cons_succ]
  simp only [rebandMid_three]
  simp only [List.set_cons_zero, List.set_cons_succ, sortLevels_three, sort_nil]
  rfl

theorem filter_promote_reset (xs : List RPeerInfo) :
    (xs.map reset50).filter (fun p => decide (90 < p.RCount)) = [] := by
  induction xs with
  | nil => rfl
  | cons x xs ih => simp [List.filter_cons, reset50, ih]

theorem filter_keep_reset (xs : List RPeerInfo) :
    (xs.map reset50).filter (fun p => decide (10 ≤ p.RCount ∧ p.RCount ≤ 90)) =
      xs.map reset50 := by
  induction xs with
  | nil => rfl
  | cons x xs ih => simp [List.filter_cons, reset50, ih]

theorem demoted_perm (env : Env) (b0 b1 : List RPeerInfo) :
    List.Perm (demoted env b0 b1).1
        ((results env (levelProbes env 0 b0)).filter (fun p => decide (90 ≤ p.RCount))) ∧
      List.Perm (demoted env b0 b1).2
        (results env (levelProbes env b0.length b1) ++
          ((results env (levelProbes env 0 b0)).filter
            (fun p => decide (p.RCount < 90))).map reset50) := by
  obtain ⟨h1, h2⟩ := demoteTop_inv (probed env 0 b0).length (probed env 0 b0)
    (probed env b0.length b1) 0 (by omega)
  simp only [List.take_zero, List.drop_zero, List.nil_append] at h1 h2
  constructor
  · exact h1.trans ((probed_perm env 0 b0).filter _)
  · exact h2.trans (List.Perm.append (probed_perm env b0.length b1)
      (((probed_perm env 0 b0).filter _).map _))

/-- The levels after the two passes of a sweep of a three-level cache, up to
the order inside each level: level 0 keeps the results of its probes with a
counter of at least 90 and gains the results of the probes of level 1 with a
counter above 90; level 1 keeps the results of its probes with a counter from
10 to 90 and gains the other results of level 0, reset to 50. -/
theorem rebanded_perm (env : Env) (b0 b1 b2 : List RPeerInfo) :
    List.Perm (rebanded env b0 b1 b2).1
        ((results env (levelProbes env 0 b0)).filter (fun p => decide (90 ≤ p.RCount)) ++
          (results env (levelProbes env b0.length b1)).filter
            (fun p => decide (90 < p.RCount))) ∧
      List.Perm (rebanded env b0 b1 b2).2.1
        ((results env (levelProbes env b0.length b1)).filter
            (fun p => decide (10 ≤ p.RCount ∧ p.RCount ≤ 90)) ++
          ((results env (levelProbes env 0 b0)).filter
            (fun p => decide (p.RCount < 90))).map reset50) := by
  obtain ⟨h1, h2, _⟩ := rebandLevel_inv (demoted env b0 b1).2.length (demoted env b0 b1).1
    (demoted env b0 b1).2 (probed env (b0.length + b1.length) b2) 0 (by omega)
  simp only [List.take_zero, List.drop_zero, List.nil_append] at h1 h2
  obtain ⟨d1, d2⟩ := demoted_perm env b0 b1
  constructor
  · refine h1.trans (List.Perm.append d1 ?_)
    refine (d2.filter _).trans ?_
    rw [List.filter_append, filter_promote_reset, List.append_nil]
  · refine h2.trans ?_
    refine (d2.filter _).trans ?_
    rw [List.filter_append, filter_keep_reset]

/-! ## Lookup -/

theorem GetPeer_level_eq (hash : String) (s : List RPeerInfo) :
    GetPeer.level hash s =
      (s.find? (fun p => decide (p.Hash = hash))).map (fun p => (p.Info.ID, p.Address)) := by
  induction s with
  | nil => rfl
  | cons p ps ih =>
    by_cases h : p.Hash = hash
    · simp [GetPeer.level, h]
    · simp [GetPeer.level, h, ih]

theorem GetPeer_levels_three (b0 b1 b2 : List RPeerInfo) (rmax : Nat) (hash : String) :
    GetPeer.levels ⟨3, [b0, b1, b2], rmax⟩ hash 2 0 =
      ((b0 ++ b1).find? (fun p => decide (p.Hash = hash))).map
        (fun p => (p.Info.ID, p.Address)) := by
  simp only [GetPeer.levels, GetPeer_level_eq, List.getD_cons_zero, List.getD_cons_succ,
    List.find?_append]
  cases b0.find? (fun p => decide (p.Hash = hash)) with
  | some p => rfl
  | none =>
    cases b1.find? (fun p => decide (p.Hash = hash)) with
    | some p => rfl
    | none => rfl

theorem GetPeer_three (b0 b1 b2 : List RPeerInfo) (rmax : Nat) (hash : String) :
    GetPeer ⟨3, [b0, b1, b2], rmax⟩ hash =
      (match (b0 ++ b1).find? (fun p => decide (p.Hash = hash)) with
        | some p => Except.ok (p.Info.ID, p.Address)
        | none => Except.error "No suitable peer found in cache",
        ⟨3, [b0, b1, b2], rmax⟩) := by
  simp only [GetPeer, usub_three_one]
  rw [GetPeer_levels_three]
  cases (b0 ++ b1).find? (fun p => decide (p.Hash = hash)) <;> rfl

/-- C1: on every three-level cache `GetPeer` returns the peer-id and address of
the first record with the hash in the order level 0 front to back, then
level 1 front to back; it returns the not-found error exactly when no record of
levels 0 and 1 has the hash; the last level is not consulted, and the cache is
returned unchanged. -/
theorem GetPeer_first_match (b0 b1 b2 : List RPeerInfo) (rmax : Nat) (hash : String) :
    GetPeer ⟨3, [b0, b1, b2], rmax⟩ hash =
        (match (b0 ++ b1).find? (fun p => decide (p.Hash = hash)) with
          | some p => Except.ok (p.Info.ID, p.Address)
          | none => Except.error "No suitable peer found in cache",
          ⟨3, [b0, b1, b2], rmax⟩) ∧
      ((GetPeer ⟨3, [b0, b1, b2], rmax⟩ hash).1 =
          Except.error "No suitable peer found in cache" ↔
        ∀ p ∈ b0 ++ b1, p.Hash ≠ hash) ∧
      (GetPeer ⟨3, [b0, b1, b2], rmax⟩ hash).1 = (GetPeer ⟨3, [b0, b1, []], rmax⟩ hash).1 ∧
      (GetPeer ⟨3, [b0, b1, b2], rmax⟩ hash).2 = ⟨3, [b0, b1, b2], rmax⟩ := by
  refine ⟨GetPeer_three b0 b1 b2 rmax hash, ?_, ?_, ?_⟩
  · rw [GetPeer_three]
    cases h : (b0 ++ b1).find? (fun p => decide (p.Hash = hash)) with
    | some p =>
      have hp := List.find?_some h
      have hm := List.mem_of_find?_eq_some h
      simp only [decide_eq_true_eq] at hp
      constructor
      · intro he; cases he
      · intro hall; exact absurd hp (hall p hm)
    | none =>
      have hn := List.find?_eq_none.mp h
      simp only [decide_eq_true_eq] at hn
      exact ⟨fun _ => hn, fun _ => rfl⟩
  · rw [GetPeer_three, GetPeer_three]
  · rw [GetPeer_three]

theorem find_first_index (P : RPeerInfo → Bool) (s : List RPeerInfo) (p : RPeerInfo)
    (h : s.find? P = some p) :
    ∃ i : Nat, s[i]? = some p ∧ P p = true ∧
      ∀ j : Nat, j < i → ∀ q, s[j]? = some q → P q = false := by
  obtain ⟨hp, as, bs, rfl, hno⟩ := List.find?_eq_some.mp h
  refine ⟨as.length, ?_, hp, ?_⟩
  · rw [List.getElem?_append_right (Nat.le_refl _)]; simp
  · intro j hj q hq
    rw [List.getElem?_append_left hj] at hq
    have hmem : q ∈ as := List.getElem?_mem hq
    simpa using hno q hmem

/-- Every reachable cache has three levels and `rmax = 3`. -/
theorem Reachable_shape (c : PeerCache) (h : Reachable c) :
    ∃ b0 b1 b2 : List RPeerInfo, c = ⟨3, [b0, b1, b2], 3⟩ := by
  induction h with
  | init => exact ⟨[], [], [], rfl⟩
  | add c p _ ih =>
    obtain ⟨b0, b1, b2, rfl⟩ := ih
    exact ⟨b0, _, b2, by simp [AddPeer, usub_three_two]; rfl⟩
  | remove c id address _ ih =>
    obtain ⟨b0, b1, b2, rfl⟩ := ih
    simp only [RemovePeer, usub_three_one, RemovePeer.levels]
    split
    · exact ⟨_, b1, b2, rfl⟩
    · split
      · exact ⟨b0, _, b2, rfl⟩
      · exact ⟨b0, b1, b2, rfl⟩
  | sweep srt env c _ ih =>
    obtain ⟨b0, b1, b2, rfl⟩ := ih
    exact ⟨_, _, _, updateCache_three srt env b0 b1 b2 3⟩

/-- C2, counterexample: the cache `unsortedCache` is reachable (three `AddPeer`,
one sweep, one `RemovePeer`); `GetPeer "h"` returns peer `c`, whose record has
round-trip time 3, although the same level holds a record with hash `h` and
round-trip time 2: `rpfs` moved the last record to the front. -/
theorem GetPeer_lowest_rtt_counterexample :
    Reachable unsortedCache ∧
      unsortedCache =
        ⟨3, [[],
          [⟨51, ⟨⟨3⟩, "c", "sh"⟩, "h", "10.0.0.3:80"⟩,
            ⟨51, ⟨⟨2⟩, "b", "sh"⟩, "h", "10.0.0.2:80"⟩],
          []], 3⟩ ∧
      (GetPeer unsortedCache "h").1 = Except.ok ("c", "10.0.0.3:80") ∧
      ∃ q ∈ unsortedCache.Levels.getD 1 [], q.Hash = "h" ∧
        ∀ p ∈ unsortedCache.Levels.getD 1 [], p.Info.ID = "c" → p.Address = "10.0.0.3:80" →
          q.Info.Perf.RTT < p.Info.Perf.RTT := by
  have hval : unsortedCache =
      ⟨3, [[],
        [⟨51, ⟨⟨3⟩, "c", "sh"⟩, "h", "10.0.0.3:80"⟩,
          ⟨51, ⟨⟨2⟩, "b", "sh"⟩, "h", "10.0.0.2:80"⟩],
        []], 3⟩ := by decide
  refine ⟨?_, hval, ?_, ?_⟩
  · exact Reachable.remove _ _ _ (Reachable.sweep _ _ _
      (Reachable.add _ _ (Reachable.add _ _ (Reachable.add _ _ Reachable.init))))
  · rw [hval]; rfl
  · rw [hval]
    exact ⟨⟨51, ⟨⟨2⟩, "b", "sh"⟩, "h", "10.0.0.2:80"⟩, by decide, by decide, by decide⟩

/-- C2, amended: on every reachable cache a successful `GetPeer` returns the
peer-id and address of a record of the lowest-indexed level among 0 and 1 that
holds a record with the hash, namely the first such record of that level; when
the cache is the result of a sweep, that record has the smallest last
round-trip time among the records of that level with the hash. -/
theorem GetPeer_lowest_band (c : PeerCache) (hc : Reachable c) (hash : String)
    (id : PeerID) (address : String)
    (hget : (GetPeer c hash).1 = Except.ok (id, address)) :
    ∃ (l i : Nat) (p : RPeerInfo), l < 2 ∧ (c.Levels.getD l [])[i]? = some p ∧
      p.Hash = hash ∧ p.Info.ID = id ∧ p.Address = address ∧
      (∀ l' : Nat, l' < l → ∀ q ∈ c.Levels.getD l' [], q.Hash ≠ hash) ∧
      (∀ j : Nat, j < i → ∀ q, (c.Levels.getD l [])[j]? = some q → q.Hash ≠ hash) ∧
      (∀ (srt : SliceSort) (env : Env) (c0 : PeerCache), Reachable c0 →
        c = updateCache srt env c0 →
        ∀ q ∈ c.Levels.getD l [], q.Hash = hash → p.Info.Perf.RTT ≤ q.Info.Perf.RTT) := by
  obtain ⟨b0, b1, b2, rfl⟩ := Reachable_shape c hc
  have hfirst := GetPeer_three b0 b1 b2 3 hash
  rw [hfirst] at hget
  -- the record found and the level that holds it
  have hlev : ∃ (l : Nat) (p : RPeerInfo), l < 2 ∧
      ([b0, b1, b2].getD l []).find? (fun p => decide (p.Hash = hash)) = some p ∧
      p.Info.ID = id ∧ p.Address = address ∧
      (∀ l' : Nat, l' < l → ∀ q ∈ [b0, b1, b2].getD l' [], q.Hash ≠ hash) := by
    rw [List.find?_append] at hget
    cases h0 : b0.find? (fun p => decide (p.Hash = hash)) with
    | some p =>
      rw [h0] at hget
      simp only [Option.or_some, Except.ok.injEq, Prod.mk.injEq] at hget
      exact ⟨0, p, by omega, by simpa using h0, hget.1, hget.2, by intro l' hl'; omega⟩
    | none =>
      rw [h0] at hget
      simp only [Option.none_or] at hget
      cases h1 : b1.find? (fun p => decide (p.Hash = hash)) with
      | some p =>
        rw [h1] at hget
        simp only [Except.ok.injEq, Prod.mk.injEq] at hget
        refine ⟨1, p, by omega, by simpa using h1, hget.1, hget.2, ?_⟩
        intro l' hl' q hq
        have hl0 : l' = 0 := by omega
        subst hl0
        have hn := List.find?_eq_none.mp h0 q (by simpa using hq)
        simpa using hn
      | none =>
        rw [h1] at hget
        cases hget
  obtain ⟨l, p, hl, hfind, hid, haddr, hlower⟩ := hlev
  obtain ⟨i, hi, hp, hbefore⟩ := find_first_index _ _ _ hfind
  simp only [decide_eq_true_eq] at hp
  refine ⟨l, i, p, hl, hi, hp, hid, haddr, hlower, ?_, ?_⟩
  · intro j hj q hq
    have := hbefore j hj q hq
    simpa using this
  · intro srt env c0 hc0 hsweep q hq hqh
    obtain ⟨a0, a1, a2, rfl⟩ := Reachable_shape c0 hc0
    rw [updateCache_three] at hsweep
    -- the level is sorted
    have hsorted : List.Pairwise (fun a b => RPeerInfoCompare b a = false)
        ([b0, b1, b2].getD l []) := by
      have hl01 : l = 0 ∨ l = 1 := by omega
      injection hsweep with _ hLevels _
      rcases hl01 with rfl | rfl
      · simp only [List.getD_cons_zero]
        have : b0 = srt.run (rebanded env a0 a1 a2).1 := by
          injection hLevels
        rw [this]; exact srt.sorted _
      · simp only [List.getD_cons_succ, List.getD_cons_zero]
        have : b1 = srt.run (rebanded env a0 a1 a2).2.1 := by
          injection hLevels with _ h2
          injection h2
        rw [this]; exact srt.sorted _
    obtain ⟨j, hjq⟩ := List.getElem?_of_mem hq
    rcases Nat.lt_trichotomy j i with hji | hji | hji
    · have := hbefore j hji q hjq
      simp [hqh] at this
    · subst hji
      rw [hi] at hjq
      cases hjq
      exact le_refl _
    · obtain ⟨hilt, hieq⟩ := List.getElem?_eq_some_iff.mp hi
      obtain ⟨hjlt, hjeq⟩ := List.getElem?_eq_some_iff.mp hjq
      have := (List.pairwise_iff_getElem.mp hsorted) i j hilt hjlt hji
      rw [hieq, hjeq] at this
      simpa [RPeerInfoCompare, PerfIndCompare] using this

/-- C2, amended, at the cache `sortedCache` and the hash `h`. -/
theorem GetPeer_lowest_band_witness :
    ∃ (l i : Nat) (p : RPeerInfo), l < 2 ∧ (sortedCache.Levels.getD l [])[i]? = some p ∧
      p.Hash = "h" ∧ p.Info.ID = "b" ∧ p.Address = "10.0.0.2:80" ∧
      (∀ l' : Nat, l' < l → ∀ q ∈ sortedCache.Levels.getD l' [], q.Hash ≠ "h") ∧
      (∀ j : Nat, j < i → ∀ q, (sortedCache.Levels.getD l [])[j]? = some q → q.Hash ≠ "h") ∧
      (∀ (srt : SliceSort) (env : Env) (c0 : PeerCache), Reachable c0 →
        sortedCache = updateCache srt env c0 →
        ∀ q ∈ sortedCache.Levels.getD l [], q.Hash = "h" →
          p.Info.Perf.RTT ≤ q.Info.Perf.RTT) :=
  GetPeer_lowest_band sortedCache
    (Reachable.sweep _ _ _ (Reachable.add _ _ (Reachable.add _ _ Reachable.init)))
    "h" "b" "10.0.0.2:80" rfl

/-! ## The probe pass -/

theorem probeOne_eq_specProbe (env : Env) (k : Nat) (p : RPeerInfo) (h : p.RCount ≤ 100) :
    probeOne env k p = specProbe env k p := by
  unfold probeOne specProbe
  simp only [PerfIndCompare, decide_eq_true_eq, gt_iff_lt]
  split_ifs <;> first | rfl | (congr 2; omega)

theorem probeOne_same_peer (env : Env) (k : Nat) (p q : RPeerInfo)
    (h : probeOne env k p = some q) :
    q.Info.ID = p.Info.ID ∧ q.Info.ServName = p.Info.ServName ∧ q.Hash = p.Hash ∧
      q.Address = p.Address ∧ q.Info.Perf.RTT = env.Ping k p.Info.ID := by
  simp only [probeOne] at h
  split_ifs at h <;> cases h <;> exact ⟨rfl, rfl, rfl, rfl, rfl⟩

theorem probed_spec (env : Env) (k : Nat) (b : List RPeerInfo)
    (hb : ∀ p ∈ b, p.RCount ≤ 100) :
    List.Perm (probed env k b)
      ((levelProbes env k b).filterMap (fun kp => specProbe env kp.1 kp.2)) := by
  have hcongr : results env (levelProbes env k b) =
      (levelProbes env k b).filterMap (fun kp => specProbe env kp.1 kp.2) := by
    unfold results
    apply List.filterMap_congr
    intro kp hkp
    exact probeOne_eq_specProbe env kp.1 kp.2 (hb kp.2 (levelProbes_mem env k b kp hkp).1)
  exact hcongr ▸ probed_perm env k b

/-- C3: in the first pass of a sweep of a three-level cache whose counters are
at most 100, every record present at the start is probed exactly once: the
probes of each level are, up to order, the records of the level, and the probes
of the pass are numbered 0, 1, 2, ... without gap.  Each probe has its own
lookup and ping result, and every level is left with exactly the results of the
probe rule of the specification (`specProbe`) on its probes: a record whose
probe has `rtt == 0` or `rtt > rtt-hard` leaves nothing in its level, a record
with `rtt > rtt-soft` gets the rtt and the counter `max (r - 10) 0`, any other
record gets the rtt and the counter `min (r + 1) 100`. -/
theorem firstPass_probe_rule (env : Env) (b0 b1 b2 : List RPeerInfo) (rmax : Nat)
    (hb : ∀ p ∈ b0 ++ b1 ++ b2, p.RCount ≤ 100) :
    ∃ pr0 pr1 pr2 : List (Nat × RPeerInfo),
      (updateCache.firstPass env 3 0 ⟨3, [b0, b1, b2], rmax⟩ 0).2 = pr0 ++ pr1 ++ pr2 ∧
      List.Perm (pr0.map Prod.snd) b0 ∧ List.Perm (pr1.map Prod.snd) b1 ∧
      List.Perm (pr2.map Prod.snd) b2 ∧
      (pr0 ++ pr1 ++ pr2).map Prod.fst = List.range (b0.length + b1.length + b2.length) ∧
      ∃ n0 n1 n2 : List RPeerInfo,
        (updateCache.firstPass env 3 0 ⟨3, [b0, b1, b2], rmax⟩ 0).1 =
          ⟨3, [n0, n1, n2], rmax⟩ ∧
        List.Perm n0 (pr0.filterMap (fun kp => specProbe env kp.1 kp.2)) ∧
        List.Perm n1 (pr1.filterMap (fun kp => specProbe env kp.1 kp.2)) ∧
        List.Perm n2 (pr2.filterMap (fun kp => specProbe env kp.1 kp.2)) := by
  have h0 : ∀ p ∈ b0, p.RCount ≤ 100 := fun p hp => hb p (by simp [hp])
  have h1 : ∀ p ∈ b1, p.RCount ≤ 100 := fun p hp => hb p (by simp [hp])
  have h2 : ∀ p ∈ b2, p.RCount ≤ 100 := fun p hp => hb p (by simp [hp])
  refine ⟨levelProbes env 0 b0, levelProbes env b0.length b1,
    levelProbes env (b0.length + b1.length) b2, ?_, levelProbes_records env _ b0,
    levelProbes_records env _ b1, levelProbes_records env _ b2, ?_, ?_⟩
  · have h := sweepProbes_three env b0 b1 b2 rmax
    rw [List.append_assoc]
    exact h
  · rw [List.map_append, List.map_append, levelProbes_calls, levelProbes_calls,
      levelProbes_calls, List.range_eq_range']
    have e1 := List.range'_append_1 0 b0.length b1.length
    rw [Nat.zero_add] at e1
    rw [e1]
    have e2 := List.range'_append_1 0 (b1.length + b0.length) b2.length
    rw [Nat.zero_add, Nat.add_comm b1.length b0.length] at e2
    rw [Nat.add_comm b1.length b0.length, e2]
    congr 1
    omega
  · exact ⟨probed env 0 b0, probed env b0.length b1, probed env (b0.length + b1.length) b2,
      firstPass_three env b0 b1 b2 rmax, probed_spec env _ b0 h0, probed_spec env _ b1 h1,
      probed_spec env _ b2 h2⟩

/-- C3 at the levels of `mixedCache` under `mixedEnv`: the probes are a hard
fail, a soft fail and two passes, the two equal records of peer `b` getting
different results. -/
theorem firstPass_probe_rule_witness :
    (∀ p ∈ mixedLevel0 ++ mixedLevel1 ++ [], p.RCount ≤ 100) ∧
      (∃ pr0 pr1 pr2 : List (Nat × RPeerInfo),
        (updateCache.firstPass mixedEnv 3 0 ⟨3, [mixedLevel0, mixedLevel1, []], 3⟩ 0).2 =
          pr0 ++ pr1 ++ pr2 ∧
        List.Perm (pr0.map Prod.snd) mixedLevel0 ∧ List.Perm (pr1.map Prod.snd) mixedLevel1 ∧
        List.Perm (pr2.map Prod.snd) [] ∧
        (pr0 ++ pr1 ++ pr2).map Prod.fst =
          List.range (mixedLevel0.length + mixedLevel1.length + ([] : List RPeerInfo).length) ∧
        ∃ n0 n1 n2 : List RPeerInfo,
          (updateCache.firstPass mixedEnv 3 0 ⟨3, [mixedLevel0, mixedLevel1, []], 3⟩ 0).1 =
            ⟨3, [n0, n1, n2], 3⟩ ∧
          List.Perm n0 (pr0.filterMap (fun kp => specProbe mixedEnv kp.1 kp.2)) ∧
          List.Perm n1 (pr1.filterMap (fun kp => specProbe mixedEnv kp.1 kp.2)) ∧
          List.Perm n2 (pr2.filterMap (fun kp => specProbe mixedEnv kp.1 kp.2))) ∧
      updateCache.firstPass mixedEnv 3 0 mixedCache 0 =
        (⟨3, [[],
            [⟨40, ⟨⟨30⟩, "b", "sh"⟩, "h", "10.0.0.2:80"⟩,
              ⟨51, ⟨⟨5⟩, "b", "sh"⟩, "h", "10.0.0.2:80"⟩,
              ⟨6, ⟨⟨5⟩, "c", "sh"⟩, "h", "10.0.0.3:80"⟩],
            []], 3⟩,
          [(0, ⟨92, ⟨⟨4⟩, "a", "sx"⟩, "x", "10.0.0.1:80"⟩),
            (1, ⟨50, ⟨⟨7⟩, "b", "sh"⟩, "h", "10.0.0.2:80"⟩),
            (2, ⟨50, ⟨⟨7⟩, "b", "sh"⟩, "h", "10.0.0.2:80"⟩),
            (3, ⟨5, ⟨⟨9⟩, "c", "sh"⟩, "h", "10.0.0.3:80"⟩)]) :=
  ⟨by decide, firstPass_probe_rule mixedEnv mixedLevel0 mixedLevel1 [] 3 (by decide),
    by decide⟩

/-! ## Membership in the levels after a sweep -/

theorem mem_updateCache_level0 (srt : SliceSort) (env : Env) (b0 b1 b2 : List RPeerInfo)
    (rmax : Nat) (q : RPeerInfo) :
    q ∈ (updateCache srt env ⟨3, [b0, b1, b2], rmax⟩).Levels.getD 0 [] ↔
      (∃ kp ∈ levelProbes env 0 b0, probeOne env kp.1 kp.2 = some q ∧ 90 ≤ q.RCount) ∨
        (∃ kp ∈ levelProbes env b0.length b1,
          probeOne env kp.1 kp.2 = some q ∧ 90 < q.RCount) := by
  rw [updateCache_three]
  simp only [List.getD_cons_zero]
  rw [(srt.perm _).mem_iff, (rebanded_perm env b0 b1 b2).1.mem_iff]
  simp only [results, List.mem_append, List.mem_filter, List.mem_filterMap, decide_eq_true_eq]
  constructor
  · rintro (⟨⟨p, hp, hq⟩, hc⟩ | ⟨⟨p, hp, hq⟩, hc⟩)
    · exact Or.inl ⟨p, hp, hq, hc⟩
    · exact Or.inr ⟨p, hp, hq, hc⟩
  · rintro (⟨p, hp, hq, hc⟩ | ⟨p, hp, hq, hc⟩)
    · exact Or.inl ⟨⟨p, hp, hq⟩, hc⟩
    · exact Or.inr ⟨⟨p, hp, hq⟩, hc⟩

theorem mem_updateCache_level1 (srt : SliceSort) (env : Env) (b0 b1 b2 : List RPeerInfo)
    (rmax : Nat) (q : RPeerInfo) :
    q ∈ (updateCache srt env ⟨3, [b0, b1, b2], rmax⟩).Levels.getD 1 [] ↔
      (∃ kp ∈ levelProbes env b0.length b1,
          probeOne env kp.1 kp.2 = some q ∧ 10 ≤ q.RCount ∧ q.RCount ≤ 90) ∨
        (∃ kp ∈ levelProbes env 0 b0, ∃ q',
          probeOne env kp.1 kp.2 = some q' ∧ q'.RCount < 90 ∧ q = reset50 q') := by
  rw [updateCache_three]
  simp only [List.getD_cons_zero, List.getD_cons_succ]
  rw [(srt.perm _).mem_iff, (rebanded_perm env b0 b1 b2).2.mem_iff]
  simp only [results, List.mem_append, List.mem_filter, List.mem_filterMap, List.mem_map,
    decide_eq_true_eq]
  constructor
  · rintro (⟨⟨p, hp, hq⟩, hc⟩ | ⟨q', ⟨⟨p, hp, hq⟩, hc⟩, rfl⟩)
    · exact Or.inl ⟨p, hp, hq, hc⟩
    · exact Or.inr ⟨p, hp, q', hq, hc, rfl⟩
  · rintro (⟨p, hp, hq, hc⟩ | ⟨p, hp, q', hq, hc, rfl⟩)
    · exact Or.inl ⟨⟨p, hp, hq⟩, hc⟩
    · exact Or.inr ⟨q', ⟨⟨p, hp, hq⟩, hc⟩, rfl⟩

theorem updateCache_last_empty (srt : SliceSort) (env : Env) (b0 b1 b2 : List RPeerInfo)
    (rmax : Nat) :
    ∃ n0 n1 : List RPeerInfo,
      updateCache srt env ⟨3, [b0, b1, b2], rmax⟩ = ⟨3, [n0, n1, []], rmax⟩ :=
  ⟨_, _, updateCache_three srt env b0 b1 b2 rmax⟩

/-! ## The counter bound -/

theorem probeOne_bound (env : Env) (k : Nat) (p q : RPeerInfo) (hp : p.RCount ≤ 100)
    (h : probeOne env k p = some q) : q.RCount ≤ 100 := by
  simp only [probeOne] at h
  split_ifs at h <;> cases h <;> simp <;> omega

theorem rpfs_subset (s : List RPeerInfo) (i : Nat) (p : RPeerInfo) (h : p ∈ rpfs s i) :
    p ∈ s := by
  rcases Nat.lt_or_ge i s.length with hi | hi
  · exact List.mem_of_mem_eraseIdx ((rpfs_perm_eraseIdx s i hi).mem_iff.mp h)
  · have hnone : s[i]? = none := List.getElem?_eq_none_iff.mpr hi
    have : rpfs s i = s := by
      unfold rpfs
      rw [hnone]
      cases s.getLast? <;> rfl
    rwa [this] at h

theorem RemovePeer_three (b0 b1 b2 : List RPeerInfo) (rmax : Nat) (id : PeerID)
    (address : String) :
    RemovePeer ⟨3, [b0, b1, b2], rmax⟩ id address =
      match RemovePeer.level id address rmax b0 0 0 with
      | some i => ⟨3, [rpfs b0 i, b1, b2], rmax⟩
      | none =>
        match RemovePeer.level id address rmax b1 0 0 with
        | some i => ⟨3, [b0, rpfs b1 i, b2], rmax⟩
        | none => ⟨3, [b0, b1, b2], rmax⟩ := by
  simp only [RemovePeer, usub_three_one, RemovePeer.levels, List.getD_cons_zero,
    List.getD_cons_succ]
  cases RemovePeer.level id address rmax b0 0 0 with
  | some i => rfl
  | none =>
    cases RemovePeer.level id address rmax b1 0 0 with
    | some i => rfl
    | none => rfl

theorem AddPeer_three (b0 b1 b2 : List RPeerInfo) (rmax : Nat) (p : PeerRequest) :
    AddPeer ⟨3, [b0, b1, b2], rmax⟩ p =
      ⟨3, [b0, b1 ++ [⟨50, ⟨⟨0⟩, p.ID, p.ServName⟩, p.Hash, p.Address⟩], b2], rmax⟩ := by
  simp [AddPeer, usub_three_two, apts]

theorem RCountBounded_three (b0 b1 b2 : List RPeerInfo) (rmax : Nat) :
    RCountBounded ⟨3, [b0, b1, b2], rmax⟩ ↔
      (∀ p ∈ b0, p.RCount ≤ 100) ∧ (∀ p ∈ b1, p.RCount ≤ 100) ∧ (∀ p ∈ b2, p.RCount ≤ 100) := by
  simp [RCountBounded]

/-- C4: the bound `RCount ≤ 100` holds in the empty cache of `NewPeerCache`,
and when it holds in a three-level cache it holds after `AddPeer`, after
`RemovePeer` and after one sweep, whatever the registry answer and the ping
result of each single probe of the sweep and whatever the sort. -/
theorem RCount_invariant (srt : SliceSort) (env : Env) (b0 b1 b2 : List RPeerInfo)
    (rmax : Nat) (h : RCountBounded ⟨3, [b0, b1, b2], rmax⟩) :
    RCountBounded NewPeerCache ∧
      (∀ p : PeerRequest, RCountBounded (AddPeer ⟨3, [b0, b1, b2], rmax⟩ p)) ∧
      (∀ (id : PeerID) (address : String),
        RCountBounded (RemovePeer ⟨3, [b0, b1, b2], rmax⟩ id address)) ∧
      RCountBounded (updateCache srt env ⟨3, [b0, b1, b2], rmax⟩) := by
  obtain ⟨h0, h1, h2⟩ := (RCountBounded_three b0 b1 b2 rmax).mp h
  refine ⟨by decide, ?_, ?_, ?_⟩
  · intro p
    rw [AddPeer_three, RCountBounded_three]
    refine ⟨h0, ?_, h2⟩
    intro q hq
    rcases List.mem_append.mp hq with hq | hq
    · exact h1 q hq
    · rw [List.mem_singleton] at hq
      subst hq
      show 50 ≤ 100
      omega
  · intro id address
    rw [RemovePeer_three]
    cases RemovePeer.level id address rmax b0 0 0 with
    | some i =>
      rw [RCountBounded_three]
      exact ⟨fun p hp => h0 p (rpfs_subset b0 i p hp), h1, h2⟩
    | none =>
      cases RemovePeer.level id address rmax b1 0 0 with
      | some i =>
        rw [RCountBounded_three]
        exact ⟨h0, fun p hp => h1 p (rpfs_subset b1 i p hp), h2⟩
      | none => exact h
  · have hl0 := mem_updateCache_level0 srt env b0 b1 b2 rmax
    have hl1 := mem_updateCache_level1 srt env b0 b1 b2 rmax
    obtain ⟨n0, n1, hn⟩ := updateCache_last_empty srt env b0 b1 b2 rmax
    rw [hn] at hl0 hl1 ⊢
    simp only [List.getD_cons_zero, List.getD_cons_succ] at hl0 hl1
    rw [RCountBounded_three]
    refine ⟨?_, ?_, by simp⟩
    · intro q hq
      rcases (hl0 q).mp hq with ⟨kp, hp, hpq, _⟩ | ⟨kp, hp, hpq, _⟩
      · exact probeOne_bound env kp.1 kp.2 q (h0 kp.2 (levelProbes_mem env _ b0 kp hp).1) hpq
      · exact probeOne_bound env kp.1 kp.2 q (h1 kp.2 (levelProbes_mem env _ b1 kp hp).1) hpq
    · intro q hq
      rcases (hl1 q).mp hq with ⟨kp, hp, hpq, _⟩ | ⟨kp, hp, q', _, _, rfl⟩
      · exact probeOne_bound env kp.1 kp.2 q (h1 kp.2 (levelProbes_mem env _ b1 kp hp).1) hpq
      · simp [reset50]

/-- C4 at `mixedCache` with `mixedEnv` and insertion sort: the sweep has a
hard fail, a soft fail and two passes. -/
theorem RCount_invariant_witness :
    RCountBounded mixedCache ∧
      (RCountBounded NewPeerCache ∧
        (∀ p : PeerRequest, RCountBounded (AddPeer mixedCache p)) ∧
        (∀ (id : PeerID) (address : String),
          RCountBounded (RemovePeer mixedCache id address)) ∧
        RCountBounded (updateCache insertionSlice mixedEnv mixedCache)) :=
  ⟨by decide,
    RCount_invariant insertionSlice mixedEnv mixedLevel0 mixedLevel1 [] 3 (by decide)⟩
/-! ## Hysteresis (L2) -/

theorem mem_sweepProbes_level0 (env : Env) (b0 b1 b2 : List RPeerInfo) (rmax : Nat)
    (kp : Nat × RPeerInfo) :
    (kp ∈ sweepProbes env ⟨3, [b0, b1, b2], rmax⟩ ∧ kp.1 < b0.length) ↔
      kp ∈ levelProbes env 0 b0 := by
  rw [sweepProbes_three]
  simp only [List.mem_append]
  constructor
  · rintro ⟨h | h | h, hk⟩
    · exact h
    · have := (levelProbes_mem env _ b1 kp h).2.1
      omega
    · have := (levelProbes_mem env _ b2 kp h).2.1
      omega
  · intro h
    have := (levelProbes_mem env _ b0 kp h).2.2
    exact ⟨Or.inl h, by omega⟩

theorem mem_sweepProbes_level1 (env : Env) (b0 b1 b2 : List RPeerInfo) (rmax : Nat)
    (kp : Nat × RPeerInfo) :
    (kp ∈ sweepProbes env ⟨3, [b0, b1, b2], rmax⟩ ∧ b0.length ≤ kp.1 ∧
        kp.1 < b0.length + b1.length) ↔
      kp ∈ levelProbes env b0.length b1 := by
  rw [sweepProbes_three]
  simp only [List.mem_append]
  constructor
  · rintro ⟨h | h | h, hk, hk2⟩
    · have := (levelProbes_mem env _ b0 kp h).2.2
      omega
    · exact h
    · have := (levelProbes_mem env _ b2 kp h).2.1
      omega
  · intro h
    have := (levelProbes_mem env _ b1 kp h).2
    exact ⟨Or.inr (Or.inl h), this.1, this.2⟩

theorem probeOne_soft (env : Env) (k : Nat) (p : RPeerInfo)
    (h0 : env.Ping k p.Info.ID ≠ 0)
    (hhard : ¬ (env.GetOrRequestService k p.Info.ServName).NetworkHardReq.RTT <
      env.Ping k p.Info.ID)
    (hsoft : (env.GetOrRequestService k p.Info.ServName).NetworkSoftReq.RTT <
      env.Ping k p.Info.ID) :
    probeOne env k p =
      some { p with
        Info := { p.Info with Perf := { RTT := env.Ping k p.Info.ID } }
        RCount := if p.RCount < 10 then 0 else p.RCount - 10 } := by
  simp [probeOne, PerfIndCompare, h0, hhard, hsoft]

/-- C5, counterexample: a level-0 record with counter 100 whose probe is a soft
fail (rtt 30 with soft requirement 20 and hard requirement 50) is left in
level 0 with counter 90 by the sweep; level 1 stays empty. -/
theorem soft_fail_at_100_counterexample :
    sweepProbes softFailEnv
        ⟨3, [[⟨100, ⟨⟨5⟩, "p5", "s5"⟩, "h5", "10.0.0.5:80"⟩], [], []], 3⟩ =
        [(0, ⟨100, ⟨⟨5⟩, "p5", "s5"⟩, "h5", "10.0.0.5:80"⟩)] ∧
      softFailEnv.Ping 0 "p5" ≠ 0 ∧
      ¬ (softFailEnv.GetOrRequestService 0 "s5").NetworkHardReq.RTT < softFailEnv.Ping 0 "p5" ∧
      (softFailEnv.GetOrRequestService 0 "s5").NetworkSoftReq.RTT < softFailEnv.Ping 0 "p5" ∧
      updateCache insertionSlice softFailEnv
          ⟨3, [[⟨100, ⟨⟨5⟩, "p5", "s5"⟩, "h5", "10.0.0.5:80"⟩], [], []], 3⟩ =
        ⟨3, [[⟨90, ⟨⟨30⟩, "p5", "s5"⟩, "h5", "10.0.0.5:80"⟩], [], []], 3⟩ := by
  decide

/-- C5, amended: every record `p` of level 0 is probed in the sweep (some probe
`k` among the first `b0.length` probes is a probe of `p`), and for every such
probe that is a soft fail (`rtt ≠ 0`, `rtt` not above the hard requirement,
`rtt` above the soft requirement, for the rtt and the requirement of that
probe): when the counter of `p` is at most 99 the record is, after the sweep,
in level 1 with counter exactly 50 and the measured rtt, and not in level 0;
the last level is empty.  With counter 100 the record stays in level 0 with
counter 90. -/
theorem soft_fail_demotes (srt : SliceSort) (env : Env) (b0 b1 b2 : List RPeerInfo)
    (rmax : Nat) (p : RPeerInfo) (hp : p ∈ b0) (hr : p.RCount ≤ 100) :
    (∃ k : Nat, k < b0.length ∧ (k, p) ∈ sweepProbes env ⟨3, [b0, b1, b2], rmax⟩) ∧
      ∀ k : Nat, k < b0.length → (k, p) ∈ sweepProbes env ⟨3, [b0, b1, b2], rmax⟩ →
        env.Ping k p.Info.ID ≠ 0 →
        ¬ (env.GetOrRequestService k p.Info.ServName).NetworkHardReq.RTT <
          env.Ping k p.Info.ID →
        (env.GetOrRequestService k p.Info.ServName).NetworkSoftReq.RTT <
          env.Ping k p.Info.ID →
        (p.RCount ≤ 99 →
          ({ p with Info := { p.Info with Perf := { RTT := env.Ping k p.Info.ID } },
                    RCount := 50 } ∈
              (updateCache srt env ⟨3, [b0, b1, b2], rmax⟩).Levels.getD 1 [] ∧
            { p with Info := { p.Info with Perf := { RTT := env.Ping k p.Info.ID } },
                     RCount := 50 } ∉
              (updateCache srt env ⟨3, [b0, b1, b2], rmax⟩).Levels.getD 0 [])) ∧
        (p.RCount = 100 →
          { p with Info := { p.Info with Perf := { RTT := env.Ping k p.Info.ID } },
                   RCount := 90 } ∈
            (updateCache srt env ⟨3, [b0, b1, b2], rmax⟩).Levels.getD 0 []) ∧
        (updateCache srt env ⟨3, [b0, b1, b2], rmax⟩).Levels.getD 2 [] = [] := by
  constructor
  · obtain ⟨k, hk⟩ := levelProbes_of_mem env 0 b0 p hp
    have hm := (mem_sweepProbes_level0 env b0 b1 b2 rmax (k, p)).mpr hk
    exact ⟨k, hm.2, hm.1⟩
  intro k hk hlog h0 hhard hsoft
  have hprobe := probeOne_soft env k p h0 hhard hsoft
  have hmem : (k, p) ∈ levelProbes env 0 b0 :=
    (mem_sweepProbes_level0 env b0 b1 b2 rmax (k, p)).mp ⟨hlog, hk⟩
  refine ⟨?_, ?_, ?_⟩
  · intro h99
    constructor
    · rw [mem_updateCache_level1]
      refine Or.inr ⟨(k, p), hmem, _, hprobe, ?_, ?_⟩
      · show (if p.RCount < 10 then 0 else p.RCount - 10) < 90
        split_ifs <;> omega
      · rfl
    · rw [mem_updateCache_level0]
      rintro (⟨_, _, _, hc⟩ | ⟨_, _, _, hc⟩)
      · exact absurd hc (by show ¬ 90 ≤ 50; omega)
      · exact absurd hc (by show ¬ 90 < 50; omega)
  · intro h100
    rw [mem_updateCache_level0]
    refine Or.inl ⟨(k, p), hmem, ?_, ?_⟩
    · show probeOne env k p = _
      rw [hprobe, h100]; rfl
    · show 90 ≤ 90
      omega
  · rw [updateCache_three]; rfl

/-- C5, amended, at scenario 6 of the specification: `P5` with counter 92 in
level 0 and a soft fail. -/
theorem soft_fail_demotes_witness :
    (⟨92, ⟨⟨5⟩, "p5", "s5"⟩, "h5", "10.0.0.5:80"⟩ : RPeerInfo) ∈
        [(⟨92, ⟨⟨5⟩, "p5", "s5"⟩, "h5", "10.0.0.5:80"⟩ : RPeerInfo)] ∧
      (0, (⟨92, ⟨⟨5⟩, "p5", "s5"⟩, "h5", "10.0.0.5:80"⟩ : RPeerInfo)) ∈
        sweepProbes softFailEnv
          ⟨3, [[⟨92, ⟨⟨5⟩, "p5", "s5"⟩, "h5", "10.0.0.5:80"⟩], [], []], 3⟩ ∧
      (⟨50, ⟨⟨30⟩, "p5", "s5"⟩, "h5", "10.0.0.5:80"⟩ : RPeerInfo) ∈
        (updateCache insertionSlice softFailEnv
          ⟨3, [[⟨92, ⟨⟨5⟩, "p5", "s5"⟩, "h5", "10.0.0.5:80"⟩], [], []], 3⟩).Levels.getD 1 [] ∧
      (⟨50, ⟨⟨30⟩, "p5", "s5"⟩, "h5", "10.0.0.5:80"⟩ : RPeerInfo) ∉
        (updateCache insertionSlice softFailEnv
          ⟨3, [[⟨92, ⟨⟨5⟩, "p5", "s5"⟩, "h5", "10.0.0.5:80"⟩], [], []], 3⟩).Levels.getD 0 [] :=
  ⟨by decide, by decide,
    ((soft_fail_demotes insertionSlice softFailEnv
      [⟨92, ⟨⟨5⟩, "p5", "s5"⟩, "h5", "10.0.0.5:80"⟩] [] [] 3
      ⟨92, ⟨⟨5⟩, "p5", "s5"⟩, "h5", "10.0.0.5:80"⟩ (by decide) (by decide)).2 0
      (by decide) (by decide) (by decide) (by decide) (by decide)).1 (by decide)⟩

/-! ## Fast promotion (L1) -/

theorem probeOne_pass (env : Env) (k : Nat) (p : RPeerInfo)
    (h0 : env.Ping k p.Info.ID ≠ 0)
    (hhard : ¬ (env.GetOrRequestService k p.Info.ServName).NetworkHardReq.RTT <
      env.Ping k p.Info.ID)
    (hsoft : ¬ (env.GetOrRequestService k p.Info.ServName).NetworkSoftReq.RTT <
      env.Ping k p.Info.ID) :
    probeOne env k p =
      some { p with
        Info := { p.Info with Perf := { RTT := env.Ping k p.Info.ID } }
        RCount := if p.RCount < 100 then p.RCount + 1 else p.RCount } := by
  simp [probeOne, PerfIndCompare, h0, hhard, hsoft]

theorem sweepN_shape (srt : SliceSort) (envs : Nat → Env) (b0 b1 b2 : List RPeerInfo)
    (rmax : Nat) (k : Nat) :
    ∃ n0 n1 n2 : List RPeerInfo,
      sweepN srt envs k ⟨3, [b0, b1, b2], rmax⟩ = ⟨3, [n0, n1, n2], rmax⟩ := by
  induction k with
  | zero => exact ⟨b0, b1, b2, rfl⟩
  | succ k ih =>
    obtain ⟨n0, n1, n2, h⟩ := ih
    simp only [sweepN, h]
    exact ⟨_, _, _, updateCache_three srt (envs k) n0 n1 n2 rmax⟩

/-- C6, counterexample: a level-1 record with counter 0 whose probe passes
(rtt 5 with soft requirement 20 and hard requirement 50) has counter 1 after
the probe, is moved to the last level and flushed by the first sweep; level 0
is empty after every number of sweeps. -/
theorem fast_promotion_from_zero_counterexample :
    (∀ k : Nat, 0 < sampleEnv.Ping k "p6" ∧
        sampleEnv.Ping k "p6" ≤ (sampleEnv.GetOrRequestService k "s6").NetworkSoftReq.RTT ∧
        (sampleEnv.GetOrRequestService k "s6").NetworkSoftReq.RTT ≤
          (sampleEnv.GetOrRequestService k "s6").NetworkHardReq.RTT) ∧
      updateCache insertionSlice sampleEnv
          ⟨3, [[], [⟨0, ⟨⟨0⟩, "p6", "s6"⟩, "h6", "10.0.0.6:80"⟩], []], 3⟩ =
        ⟨3, [[], [], []], 3⟩ ∧
      ∀ k : Nat,
        (sweepN insertionSlice (fun _ => sampleEnv) k
          ⟨3, [[], [⟨0, ⟨⟨0⟩, "p6", "s6"⟩, "h6", "10.0.0.6:80"⟩], []], 3⟩).Levels.getD 0 [] =
          [] := by
  have h1 : updateCache insertionSlice sampleEnv
      ⟨3, [[], [⟨0, ⟨⟨0⟩, "p6", "s6"⟩, "h6", "10.0.0.6:80"⟩], []], 3⟩ =
      ⟨3, [[], [], []], 3⟩ := by decide
  have h2 : updateCache insertionSlice sampleEnv ⟨3, [[], [], []], 3⟩ =
      ⟨3, [[], [], []], 3⟩ := by decide
  refine ⟨fun _ => by show (0 : Int) < 5 ∧ (5 : Int) ≤ 20 ∧ (20 : Int) ≤ 50; decide, h1, ?_⟩
  intro k
  cases k with
  | zero => rfl
  | succ k =>
    have hk : sweepN insertionSlice (fun _ => sampleEnv) (k + 1)
        ⟨3, [[], [⟨0, ⟨⟨0⟩, "p6", "s6"⟩, "h6", "10.0.0.6:80"⟩], []], 3⟩ =
        ⟨3, [[], [], []], 3⟩ := by
      induction k with
      | zero => simp only [sweepN]; exact h1
      | succ k ih => simp only [sweepN] at ih ⊢; rw [ih]; exact h2
    rw [hk]; rfl

theorem pass_keeps_level1 (srt : SliceSort) (env : Env) (b0 b1 b2 : List RPeerInfo)
    (rmax : Nat) (k : Nat) (q : RPeerInfo) (hq : (k, q) ∈ levelProbes env b0.length b1)
    (hlo : 9 ≤ q.RCount) (hhi : q.RCount ≤ 89)
    (h0 : env.Ping k q.Info.ID ≠ 0)
    (hhard : ¬ (env.GetOrRequestService k q.Info.ServName).NetworkHardReq.RTT <
      env.Ping k q.Info.ID)
    (hsoft : ¬ (env.GetOrRequestService k q.Info.ServName).NetworkSoftReq.RTT <
      env.Ping k q.Info.ID) :
    stamped q (env.Ping k q.Info.ID) (q.RCount + 1) ∈
      (updateCache srt env ⟨3, [b0, b1, b2], rmax⟩).Levels.getD 1 [] := by
  rw [mem_updateCache_level1]
  refine Or.inl ⟨(k, q), hq, ?_, ?_, ?_⟩
  · show probeOne env k q = _
    rw [probeOne_pass env k q h0 hhard hsoft, if_pos (by omega)]
    rfl
  · show 10 ≤ q.RCount + 1
    omega
  · show q.RCount + 1 ≤ 90
    omega

theorem pass_promotes (srt : SliceSort) (env : Env) (b0 b1 b2 : List RPeerInfo)
    (rmax : Nat) (k : Nat) (q : RPeerInfo) (hq : (k, q) ∈ levelProbes env b0.length b1)
    (hlo : 90 ≤ q.RCount) (hhi : q.RCount ≤ 100)
    (h0 : env.Ping k q.Info.ID ≠ 0)
    (hhard : ¬ (env.GetOrRequestService k q.Info.ServName).NetworkHardReq.RTT <
      env.Ping k q.Info.ID)
    (hsoft : ¬ (env.GetOrRequestService k q.Info.ServName).NetworkSoftReq.RTT <
      env.Ping k q.Info.ID) :
    stamped q (env.Ping k q.Info.ID) (min (q.RCount + 1) 100) ∈
      (updateCache srt env ⟨3, [b0, b1, b2], rmax⟩).Levels.getD 0 [] := by
  rw [mem_updateCache_level0]
  refine Or.inr ⟨(k, q), hq, ?_, ?_⟩
  · show probeOne env k q = _
    rw [probeOne_pass env k q h0 hhard hsoft]
    unfold stamped
    congr 2
    split_ifs <;> omega
  · show 90 < min (q.RCount + 1) 100
    omega

theorem stamped_stamped (p : RPeerInfo) (r1 r2 : Int) (c1 c2 : Nat) :
    stamped (stamped p r1 c1) r2 c2 = stamped p r2 c2 := rfl

theorem stamped_self (p : RPeerInfo) : stamped p p.Info.Perf.RTT p.RCount = p := rfl

theorem tracked_in_level1 (srt : SliceSort) (envs : Nat → Env) (b0 b1 b2 : List RPeerInfo)
    (rmax : Nat) (p : RPeerInfo) (hp : p ∈ b1) (hlo : 9 ≤ p.RCount)
    (hpass : ∀ n : Nat, ∀ kp ∈ sweepProbes (envs n) (sweepN srt envs n ⟨3, [b0, b1, b2], rmax⟩),
      kp.2.Info.ID = p.Info.ID → kp.2.Info.ServName = p.Info.ServName →
      kp.2.Hash = p.Hash → kp.2.Address = p.Address →
      0 < (envs n).Ping kp.1 p.Info.ID ∧
        (envs n).Ping kp.1 p.Info.ID ≤
          ((envs n).GetOrRequestService kp.1 p.Info.ServName).NetworkSoftReq.RTT ∧
        ((envs n).GetOrRequestService kp.1 p.Info.ServName).NetworkSoftReq.RTT ≤
          ((envs n).GetOrRequestService kp.1 p.Info.ServName).NetworkHardReq.RTT) :
    ∀ j : Nat, j ≤ 90 - p.RCount →
      ∃ rtt0 : Int, stamped p rtt0 (p.RCount + j) ∈
        (sweepN srt envs j ⟨3, [b0, b1, b2], rmax⟩).Levels.getD 1 [] := by
  intro j
  induction j with
  | zero =>
    intro _
    refine ⟨p.Info.Perf.RTT, ?_⟩
    rw [Nat.add_zero, stamped_self]
    simpa [sweepN] using hp
  | succ j ih =>
    intro hj
    obtain ⟨rtt0, hmem⟩ := ih (by omega)
    have hlog := hpass j
    obtain ⟨n0, n1, n2, hs⟩ := sweepN_shape srt envs b0 b1 b2 rmax j
    rw [hs] at hmem hlog
    simp only [List.getD_cons_zero, List.getD_cons_succ] at hmem
    obtain ⟨k, hk⟩ := levelProbes_of_mem (envs j) n0.length n1 _ hmem
    have hk2 := (mem_sweepProbes_level1 (envs j) n0 n1 n2 rmax _).mpr hk
    have h3 := hlog _ hk2.1 rfl rfl rfl rfl
    dsimp only at h3
    obtain ⟨hp0, hps, hph⟩ := h3
    have key := pass_keeps_level1 srt (envs j) n0 n1 n2 rmax k _ hk
      (by show 9 ≤ p.RCount + j; omega) (by show p.RCount + j ≤ 89; omega)
      (by show (envs j).Ping k p.Info.ID ≠ 0; omega)
      (by show ¬ ((envs j).GetOrRequestService k p.Info.ServName).NetworkHardReq.RTT <
            (envs j).Ping k p.Info.ID
          omega)
      (by show ¬ ((envs j).GetOrRequestService k p.Info.ServName).NetworkSoftReq.RTT <
            (envs j).Ping k p.Info.ID
          omega)
    rw [stamped_stamped] at key
    simp only [sweepN, hs]
    exact ⟨_, key⟩

/-- C6, amended: a record of level 1 with a starting counter from 9 to 100, all
of whose probes pass (`0 < rtt ≤ rtt-soft ≤ rtt-hard`, for the rtt and the
requirement of each probe of a record with its peer-id, service name, hash and
address, in every sweep), is in level 0 after `k = max 1 (91 - r)` consecutive
sweeps, which is at most 91 (indeed at most 82), with its counter incremented
`k` times (saturating at 100) and the rtt of its probe in the last sweep. -/
theorem fast_promotion (srt : SliceSort) (envs : Nat → Env) (b0 b1 b2 : List RPeerInfo)
    (rmax : Nat) (p : RPeerInfo) (hp : p ∈ b1) (hlo : 9 ≤ p.RCount) (hhi : p.RCount ≤ 100)
    (hpass : ∀ n : Nat, ∀ kp ∈ sweepProbes (envs n) (sweepN srt envs n ⟨3, [b0, b1, b2], rmax⟩),
      kp.2.Info.ID = p.Info.ID → kp.2.Info.ServName = p.Info.ServName →
      kp.2.Hash = p.Hash → kp.2.Address = p.Address →
      0 < (envs n).Ping kp.1 p.Info.ID ∧
        (envs n).Ping kp.1 p.Info.ID ≤
          ((envs n).GetOrRequestService kp.1 p.Info.ServName).NetworkSoftReq.RTT ∧
        ((envs n).GetOrRequestService kp.1 p.Info.ServName).NetworkSoftReq.RTT ≤
          ((envs n).GetOrRequestService kp.1 p.Info.ServName).NetworkHardReq.RTT) :
    max 1 (91 - p.RCount) ≤ 91 ∧ max 1 (91 - p.RCount) ≤ 82 ∧
      ∃ (k : Nat) (rtt0 : Int),
        (k, stamped p rtt0 (min (p.RCount + (max 1 (91 - p.RCount) - 1)) 100)) ∈
          sweepProbes (envs (max 1 (91 - p.RCount) - 1))
            (sweepN srt envs (max 1 (91 - p.RCount) - 1) ⟨3, [b0, b1, b2], rmax⟩) ∧
        stamped p ((envs (max 1 (91 - p.RCount) - 1)).Ping k p.Info.ID)
            (min (p.RCount + max 1 (91 - p.RCount)) 100) ∈
          (sweepN srt envs (max 1 (91 - p.RCount)) ⟨3, [b0, b1, b2], rmax⟩).Levels.getD 0 [] := by
  refine ⟨by omega, by omega, ?_⟩
  have hk : max 1 (91 - p.RCount) = (90 - p.RCount) + 1 := by omega
  rw [hk, Nat.add_sub_cancel]
  obtain ⟨rtt0, hmem⟩ := tracked_in_level1 srt envs b0 b1 b2 rmax p hp hlo hpass
    (90 - p.RCount) (Nat.le_refl _)
  have hlog := hpass (90 - p.RCount)
  obtain ⟨n0, n1, n2, hs⟩ := sweepN_shape srt envs b0 b1 b2 rmax (90 - p.RCount)
  rw [hs] at hmem hlog
  simp only [List.getD_cons_zero, List.getD_cons_succ] at hmem
  obtain ⟨k, hkm⟩ := levelProbes_of_mem (envs (90 - p.RCount)) n0.length n1 _ hmem
  have hk2 := (mem_sweepProbes_level1 (envs (90 - p.RCount)) n0 n1 n2 rmax _).mpr hkm
  have h3 := hlog _ hk2.1 rfl rfl rfl rfl
  dsimp only at h3
  obtain ⟨hp0, hps, hph⟩ := h3
  have key := pass_promotes srt (envs (90 - p.RCount)) n0 n1 n2 rmax k _ hkm
    (by show 90 ≤ p.RCount + (90 - p.RCount); omega)
    (by show p.RCount + (90 - p.RCount) ≤ 100; omega)
    (by show (envs (90 - p.RCount)).Ping k p.Info.ID ≠ 0; omega)
    (by show ¬ ((envs (90 - p.RCount)).GetOrRequestService k p.Info.ServName).NetworkHardReq.RTT <
          (envs (90 - p.RCount)).Ping k p.Info.ID
        omega)
    (by show ¬ ((envs (90 - p.RCount)).GetOrRequestService k p.Info.ServName).NetworkSoftReq.RTT <
          (envs (90 - p.RCount)).Ping k p.Info.ID
        omega)
  rw [stamped_stamped] at key
  have e1 : min (p.RCount + (90 - p.RCount)) 100 = p.RCount + (90 - p.RCount) := by omega
  have e2 : min (p.RCount + (90 - p.RCount + 1)) 100 =
      min ((stamped p rtt0 (p.RCount + (90 - p.RCount))).RCount + 1) 100 := by
    show _ = min (p.RCount + (90 - p.RCount) + 1) 100
    rfl
  refine ⟨k, rtt0, ?_, ?_⟩
  · rw [hs, e1]
    exact hk2.1
  · simp only [sweepN, hs]
    rw [e2]
    exact key

/-- C6, amended, at a record added by `AddPeer` (counter 50) under `sampleEnv`:
it is in level 0 after 41 sweeps. -/
theorem fast_promotion_witness :
    (⟨50, ⟨⟨0⟩, "p6", "s6"⟩, "h6", "10.0.0.6:80"⟩ : RPeerInfo) ∈
        [(⟨50, ⟨⟨0⟩, "p6", "s6"⟩, "h6", "10.0.0.6:80"⟩ : RPeerInfo)] ∧
      ∃ (k : Nat) (rtt0 : Int),
        (k, (⟨90, ⟨⟨rtt0⟩, "p6", "s6"⟩, "h6", "10.0.0.6:80"⟩ : RPeerInfo)) ∈
          sweepProbes sampleEnv
            (sweepN insertionSlice (fun _ => sampleEnv) 40
              ⟨3, [[], [⟨50, ⟨⟨0⟩, "p6", "s6"⟩, "h6", "10.0.0.6:80"⟩], []], 3⟩) ∧
        (⟨91, ⟨⟨sampleEnv.Ping k "p6"⟩, "p6", "s6"⟩, "h6", "10.0.0.6:80"⟩ : RPeerInfo) ∈
          (sweepN insertionSlice (fun _ => sampleEnv) 41
            ⟨3, [[], [⟨50, ⟨⟨0⟩, "p6", "s6"⟩, "h6", "10.0.0.6:80"⟩], []], 3⟩).Levels.getD 0 [] :=
  ⟨by decide,
    (fast_promotion insertionSlice (fun _ => sampleEnv) []
      [⟨50, ⟨⟨0⟩, "p6", "s6"⟩, "h6", "10.0.0.6:80"⟩] [] 3
      ⟨50, ⟨⟨0⟩, "p6", "s6"⟩, "h6", "10.0.0.6:80"⟩ (by decide) (by decide) (by decide)
      (fun _ _ _ _ _ _ _ => by show (0 : Int) < 5 ∧ (5 : Int) ≤ 20 ∧ (20 : Int) ≤ 50; decide)).2.2⟩

/-! ## Removal -/

theorem RemovePeer_level_some (id : PeerID) (address : String) (rmax : Nat) :
    ∀ (s : List RPeerInfo) (i count k : Nat),
      RemovePeer.level id address rmax s i count = some k →
      ∃ d : Nat, k = i + d ∧ count + d < rmax ∧
        ∃ p, s[d]? = some p ∧ (id = p.Info.ID ∧ address = p.Address) ∧
          ∀ j : Nat, j < d → ∀ q, s[j]? = some q → ¬ (id = q.Info.ID ∧ address = q.Address) := by
  intro s
  induction s with
  | nil => intro i count k h; simp [RemovePeer.level] at h
  | cons x xs ih =>
    intro i count k h
    simp only [RemovePeer.level] at h
    split_ifs at h with hc hm
    · injection h with h
      subst h
      refine ⟨0, rfl, by omega, x, by simp, hm, ?_⟩
      intro j hj; omega
    · obtain ⟨d, hk, hcd, p, hp, hpm, hbefore⟩ := ih (i + 1) (count + 1) k h
      refine ⟨d + 1, by omega, by omega, p, by simpa using hp, hpm, ?_⟩
      intro j hj q hq
      cases j with
      | zero =>
        simp only [List.getElem?_cons_zero, Option.some.injEq] at hq
        subst hq; exact hm
      | succ j =>
        simp only [List.getElem?_cons_succ] at hq
        exact hbefore j (by omega) q hq

theorem RemovePeer_level_none (id : PeerID) (address : String) (rmax : Nat) :
    ∀ (s : List RPeerInfo) (i count : Nat),
      RemovePeer.level id address rmax s i count = none →
      ∀ p ∈ s.take (rmax - count), ¬ (id = p.Info.ID ∧ address = p.Address) := by
  intro s
  induction s with
  | nil => intro i count _ p hp; simp at hp
  | cons x xs ih =>
    intro i count h p hp
    simp only [RemovePeer.level] at h
    split_ifs at h with hc hm
    · have hsplit : rmax - count = (rmax - (count + 1)) + 1 := by omega
      rw [hsplit, List.take_succ_cons, List.mem_cons] at hp
      rcases hp with rfl | hp
      · exact hm
      · exact ih (i + 1) (count + 1) h p hp
    · have hz : rmax - count = 0 := by omega
      rw [hz] at hp
      simp at hp

theorem RemovePeer_level_first (id : PeerID) (address : String) (rmax : Nat)
    (s : List RPeerInfo) (k : Nat) (p : RPeerInfo) (hk : k < rmax) (hp : s[k]? = some p)
    (hm : id = p.Info.ID ∧ address = p.Address)
    (hfirst : ∀ j : Nat, j < k → ∀ q, s[j]? = some q →
      ¬ (id = q.Info.ID ∧ address = q.Address)) :
    RemovePeer.level id address rmax s 0 0 = some k := by
  cases h : RemovePeer.level id address rmax s 0 0 with
  | none =>
    have hno := RemovePeer_level_none id address rmax s 0 0 h p
      (by
        rw [Nat.sub_zero, List.mem_iff_getElem?]
        exact ⟨k, by rw [List.getElem?_take_of_lt hk]; exact hp⟩)
    exact absurd hm hno
  | some k' =>
    obtain ⟨d, hd, _, p', hp', hm', hbefore⟩ := RemovePeer_level_some id address rmax s 0 0 k' h
    have hk' : k' = d := by omega
    subst hk'
    rcases Nat.lt_trichotomy k' k with hlt | heq | hgt
    · exact absurd hm' (hfirst k' hlt p' hp')
    · rw [heq]
    · exact absurd hm (hbefore k hgt p hp)

/-- C7: `RemovePeer` on a three-level cache with `rmax = 3` inspects the first
three positions of level 0, then of level 1.  When the first inspected record
with the peer-id and address is at position `k < 3` of level 0 (or, with no
match in the window of level 0, of level 1), that level becomes a permutation
of itself without position `k` and the other levels are unchanged.  When no
inspected record matches, the cache is unchanged, whatever lies at positions
from 3 on or in the last level. -/
theorem RemovePeer_scan (b0 b1 b2 : List RPeerInfo) (id : PeerID) (address : String) :
    (∀ (k : Nat) (p : RPeerInfo), k < 3 → b0[k]? = some p →
        (id = p.Info.ID ∧ address = p.Address) →
        (∀ j : Nat, j < k → ∀ q, b0[j]? = some q → ¬ (id = q.Info.ID ∧ address = q.Address)) →
        ∃ n0 : List RPeerInfo,
          RemovePeer ⟨3, [b0, b1, b2], 3⟩ id address = ⟨3, [n0, b1, b2], 3⟩ ∧
            List.Perm n0 (b0.eraseIdx k)) ∧
      ((∀ q ∈ b0.take 3, ¬ (id = q.Info.ID ∧ address = q.Address)) →
        ∀ (k : Nat) (p : RPeerInfo), k < 3 → b1[k]? = some p →
          (id = p.Info.ID ∧ address = p.Address) →
          (∀ j : Nat, j < k → ∀ q, b1[j]? = some q →
            ¬ (id = q.Info.ID ∧ address = q.Address)) →
          ∃ n1 : List RPeerInfo,
            RemovePeer ⟨3, [b0, b1, b2], 3⟩ id address = ⟨3, [b0, n1, b2], 3⟩ ∧
              List.Perm n1 (b1.eraseIdx k)) ∧
      ((∀ q ∈ b0.take 3, ¬ (id = q.Info.ID ∧ address = q.Address)) →
        (∀ q ∈ b1.take 3, ¬ (id = q.Info.ID ∧ address = q.Address)) →
        RemovePeer ⟨3, [b0, b1, b2], 3⟩ id address = ⟨3, [b0, b1, b2], 3⟩) := by
  have hnone : ∀ s : List RPeerInfo,
      (∀ q ∈ s.take 3, ¬ (id = q.Info.ID ∧ address = q.Address)) →
      RemovePeer.level id address 3 s 0 0 = none := by
    intro s hs
    cases h : RemovePeer.level id address 3 s 0 0 with
    | none => rfl
    | some k =>
      obtain ⟨d, _, hd, p, hp, hm, _⟩ := RemovePeer_level_some id address 3 s 0 0 k h
      have hmem : p ∈ s.take 3 := by
        rw [List.mem_iff_getElem?]
        exact ⟨d, by rw [List.getElem?_take_of_lt (by omega)]; exact hp⟩
      exact absurd hm (hs p hmem)
  refine ⟨?_, ?_, ?_⟩
  · intro k p hk hp hm hfirst
    have hlev := RemovePeer_level_first id address 3 b0 k p hk hp hm hfirst
    refine ⟨rpfs b0 k, ?_, rpfs_perm_eraseIdx b0 k (List.getElem?_eq_some_iff.mp hp).1⟩
    rw [RemovePeer_three, hlev]
  · intro h0 k p hk hp hm hfirst
    have hlev := RemovePeer_level_first id address 3 b1 k p hk hp hm hfirst
    refine ⟨rpfs b1 k, ?_, rpfs_perm_eraseIdx b1 k (List.getElem?_eq_some_iff.mp hp).1⟩
    rw [RemovePeer_three, hnone b0 h0, hlev]
  · intro h0 h1
    rw [RemovePeer_three, hnone b0 h0, hnone b1 h1]

/-- C7 at a level 0 of four records, removing the record at position 1. -/
theorem RemovePeer_scan_witness :
    ∃ n0 : List RPeerInfo,
      RemovePeer
          ⟨3, [[⟨50, ⟨⟨1⟩, "a", "sx"⟩, "x", "10.0.0.1:80"⟩,
              ⟨50, ⟨⟨2⟩, "b", "sh"⟩, "h", "10.0.0.2:80"⟩,
              ⟨50, ⟨⟨3⟩, "c", "sh"⟩, "h", "10.0.0.3:80"⟩,
              ⟨50, ⟨⟨4⟩, "b", "sh"⟩, "h", "10.0.0.2:80"⟩], [], []], 3⟩
          "b" "10.0.0.2:80" =
        ⟨3, [n0, [], []], 3⟩ ∧
      List.Perm n0
        ([(⟨50, ⟨⟨1⟩, "a", "sx"⟩, "x", "10.0.0.1:80"⟩ : RPeerInfo),
          ⟨50, ⟨⟨2⟩, "b", "sh"⟩, "h", "10.0.0.2:80"⟩,
          ⟨50, ⟨⟨3⟩, "c", "sh"⟩, "h", "10.0.0.3:80"⟩,
          ⟨50, ⟨⟨4⟩, "b", "sh"⟩, "h", "10.0.0.2:80"⟩].eraseIdx 1) :=
  (RemovePeer_scan
    [⟨50, ⟨⟨1⟩, "a", "sx"⟩, "x", "10.0.0.1:80"⟩,
      ⟨50, ⟨⟨2⟩, "b", "sh"⟩, "h", "10.0.0.2:80"⟩,
      ⟨50, ⟨⟨3⟩, "c", "sh"⟩, "h", "10.0.0.3:80"⟩,
      ⟨50, ⟨⟨4⟩, "b", "sh"⟩, "h", "10.0.0.2:80"⟩] [] [] "b" "10.0.0.2:80").1 1
    ⟨50, ⟨⟨2⟩, "b", "sh"⟩, "h", "10.0.0.2:80"⟩ (by decide) rfl (by decide)
    (by
      intro j hj q hq
      have hj0 : j = 0 := by omega
      subst hj0
      simp only [List.getElem?_cons_zero, Option.some.injEq] at hq
      subst hq
      decide)

/-! ## Duplicates -/

theorem probeOne_none_iff (env : Env) (k : Nat) (p : RPeerInfo) :
    probeOne env k p = none ↔ hardFails env k p = true := by
  simp only [probeOne, hardFails, PerfIndCompare, decide_eq_true_eq, gt_iff_lt]
  split_ifs with h1 h2 <;> simp [h1]

theorem countP_le_countP_filterMap {α β : Type} (f : α → Option β) (P : β → Bool)
    (Q : α → Bool) (h : ∀ x, Q x = true → ∃ y, f x = some y ∧ P y = true) (l : List α) :
    l.countP Q ≤ (l.filterMap f).countP P := by
  induction l with
  | nil => simp
  | cons x xs ih =>
    by_cases hq : Q x = true
    · obtain ⟨y, hy, hp⟩ := h x hq
      simp only [List.filterMap_cons, hy, List.countP_cons, hq, hp, if_true]
      omega
    · have hq' : Q x = false := by simpa using hq
      cases hf : f x with
      | none =>
        simp only [List.filterMap_cons, hf, List.countP_cons, hq', Bool.false_eq_true,
          if_false]
        omega
      | some y =>
        simp only [List.filterMap_cons, hf, List.countP_cons, hq', Bool.false_eq_true,
          if_false]
        omega

/-- C8, counterexample: after `AddPeer(p); AddPeer(p)` on the empty cache and
one sweep in which the probe of each of the two records passes, level 1 holds
two records with the same peer-id, service hash and address. -/
theorem duplicates_after_sweep_counterexample :
    updateCache insertionSlice sampleEnv
        (AddPeer
          (AddPeer NewPeerCache
            { ID := "b", ServName := "sh", Hash := "h", Address := "10.0.0.2:80" })
          { ID := "b", ServName := "sh", Hash := "h", Address := "10.0.0.2:80" }) =
      ⟨3, [[],
        [⟨51, ⟨⟨2⟩, "b", "sh"⟩, "h", "10.0.0.2:80"⟩,
          ⟨51, ⟨⟨2⟩, "b", "sh"⟩, "h", "10.0.0.2:80"⟩],
        []], 3⟩ := by
  decide

theorem probeOne_added (env : Env) (k : Nat) (req : PeerRequest)
    (hnh : hardFails env k ⟨50, ⟨⟨0⟩, req.ID, req.ServName⟩, req.Hash, req.Address⟩ = false) :
    ∃ q : RPeerInfo,
      probeOne env k ⟨50, ⟨⟨0⟩, req.ID, req.ServName⟩, req.Hash, req.Address⟩ = some q ∧
        q.Info.ID = req.ID ∧ q.Hash = req.Hash ∧ q.Address = req.Address ∧
        10 ≤ q.RCount ∧ q.RCount ≤ 90 := by
  simp only [hardFails, decide_eq_false_iff_not, not_or, gt_iff_lt] at hnh
  obtain ⟨h0, hhard⟩ := hnh
  by_cases hsoft : (env.GetOrRequestService k req.ServName).NetworkSoftReq.RTT <
      env.Ping k req.ID
  · exact ⟨_, probeOne_soft env k _ h0 hhard hsoft, rfl, rfl, rfl,
      by show 10 ≤ 40; omega, by show 40 ≤ 90; omega⟩
  · exact ⟨_, probeOne_pass env k _ h0 hhard hsoft, rfl, rfl, rfl,
      by show 10 ≤ 51; omega, by show 51 ≤ 90; omega⟩

theorem added_probes (env : Env) (b0 b1 b2 : List RPeerInfo) (rmax : Nat) (rec : RPeerInfo)
    (X : Nat × RPeerInfo → Bool) :
    (sweepProbes env ⟨3, [b0, b1 ++ [rec] ++ [rec], b2], rmax⟩).countP
        (fun kp => decide (kp.2 = rec ∧ b0.length ≤ kp.1 ∧
          kp.1 < b0.length + (b1.length + 2)) && X kp) =
      (levelProbes env b0.length (b1 ++ [rec] ++ [rec])).countP
        (fun kp => decide (kp.2 = rec) && X kp) := by
  rw [sweepProbes_three, List.countP_append, List.countP_append]
  have z0 : (levelProbes env 0 b0).countP
      (fun kp => decide (kp.2 = rec ∧ b0.length ≤ kp.1 ∧
        kp.1 < b0.length + (b1.length + 2)) && X kp) = 0 := by
    rw [List.countP_eq_zero]
    intro kp hkp
    have := (levelProbes_mem env _ b0 kp hkp).2.2
    simp only [Bool.and_eq_true, decide_eq_true_eq, not_and]
    intro h
    omega
  have z2 : (levelProbes env (b0.length + (b1 ++ [rec] ++ [rec]).length) b2).countP
      (fun kp => decide (kp.2 = rec ∧ b0.length ≤ kp.1 ∧
        kp.1 < b0.length + (b1.length + 2)) && X kp) = 0 := by
    rw [List.countP_eq_zero]
    intro kp hkp
    have := (levelProbes_mem env _ b2 kp hkp).2.1
    simp only [List.length_append, List.length_singleton] at this
    simp only [Bool.and_eq_true, decide_eq_true_eq, not_and]
    intro h
    omega
  rw [z0, z2, Nat.zero_add, Nat.add_zero]
  apply List.countP_congr
  intro kp hkp
  have := (levelProbes_mem env _ _ kp hkp).2
  simp only [List.length_append, List.length_singleton] at this
  simp only [Bool.and_eq_true, decide_eq_true_eq]
  constructor
  · rintro ⟨⟨h1, _⟩, h2⟩
    exact ⟨h1, h2⟩
  · rintro ⟨h1, h2⟩
    exact ⟨⟨h1, by omega, by omega⟩, h2⟩

/-- C8, amended: a sweep does not merge duplicates; it probes each record on
its own.  On every three-level cache, in the sweep after `AddPeer(p);
AddPeer(p)` at least two probes of level 1 are probes of a record as `AddPeer`
created it for `p`, and after the sweep level 1 holds at least as many records
with the peer-id, service hash and address of `p` as there are such probes that
are not a hard fail.  Hence when none of them is a hard fail at least two
records for `p` remain, and when one of two is a hard fail one remains. -/
theorem duplicates_survive_sweep (srt : SliceSort) (env : Env) (b0 b1 b2 : List RPeerInfo)
    (rmax : Nat) (req : PeerRequest) :
    2 ≤ (sweepProbes env (AddPeer (AddPeer ⟨3, [b0, b1, b2], rmax⟩ req) req)).countP
        (fun kp =>
          decide (kp.2 = ⟨50, ⟨⟨0⟩, req.ID, req.ServName⟩, req.Hash, req.Address⟩ ∧
            b0.length ≤ kp.1 ∧ kp.1 < b0.length + (b1.length + 2))) ∧
      (sweepProbes env (AddPeer (AddPeer ⟨3, [b0, b1, b2], rmax⟩ req) req)).countP
          (fun kp =>
            decide (kp.2 = ⟨50, ⟨⟨0⟩, req.ID, req.ServName⟩, req.Hash, req.Address⟩ ∧
              b0.length ≤ kp.1 ∧ kp.1 < b0.length + (b1.length + 2)) &&
            !hardFails env kp.1 kp.2) ≤
        ((updateCache srt env
          (AddPeer (AddPeer ⟨3, [b0, b1, b2], rmax⟩ req) req)).Levels.getD 1 []).countP
            (fun q =>
              decide (q.Info.ID = req.ID ∧ q.Hash = req.Hash ∧ q.Address = req.Address)) ∧
      ((∀ kp ∈ sweepProbes env (AddPeer (AddPeer ⟨3, [b0, b1, b2], rmax⟩ req) req),
          kp.2 = ⟨50, ⟨⟨0⟩, req.ID, req.ServName⟩, req.Hash, req.Address⟩ →
          hardFails env kp.1 kp.2 = false) →
        2 ≤ ((updateCache srt env
          (AddPeer (AddPeer ⟨3, [b0, b1, b2], rmax⟩ req) req)).Levels.getD 1 []).countP
            (fun q =>
              decide (q.Info.ID = req.ID ∧ q.Hash = req.Hash ∧ q.Address = req.Address))) := by
  rw [AddPeer_three, AddPeer_three]
  have hA : 2 ≤ (sweepProbes env
      ⟨3, [b0, b1 ++ [⟨50, ⟨⟨0⟩, req.ID, req.ServName⟩, req.Hash, req.Address⟩] ++
        [⟨50, ⟨⟨0⟩, req.ID, req.ServName⟩, req.Hash, req.Address⟩], b2], rmax⟩).countP
      (fun kp =>
        decide (kp.2 = ⟨50, ⟨⟨0⟩, req.ID, req.ServName⟩, req.Hash, req.Address⟩ ∧
          b0.length ≤ kp.1 ∧ kp.1 < b0.length + (b1.length + 2))) := by
    have h := added_probes env b0 b1 b2 rmax
      ⟨50, ⟨⟨0⟩, req.ID, req.ServName⟩, req.Hash, req.Address⟩ (fun _ => true)
    simp only [Bool.and_true] at h
    rw [h]
    have hc := (levelProbes_records env b0.length
      (b1 ++ [⟨50, ⟨⟨0⟩, req.ID, req.ServName⟩, req.Hash, req.Address⟩] ++
        [⟨50, ⟨⟨0⟩, req.ID, req.ServName⟩, req.Hash, req.Address⟩])).countP_eq
      (fun q => decide (q = ⟨50, ⟨⟨0⟩, req.ID, req.ServName⟩, req.Hash, req.Address⟩))
    rw [List.countP_map] at hc
    have hc2 : ((fun q : RPeerInfo =>
        decide (q = ⟨50, ⟨⟨0⟩, req.ID, req.ServName⟩, req.Hash, req.Address⟩)) ∘ Prod.snd) =
        (fun kp : Nat × RPeerInfo =>
          decide (kp.2 = ⟨50, ⟨⟨0⟩, req.ID, req.ServName⟩, req.Hash, req.Address⟩)) := rfl
    rw [hc2] at hc
    rw [hc]
    simp only [List.countP_append, List.countP_cons, List.countP_nil, decide_True, if_true]
    omega
  have hB : (sweepProbes env
      ⟨3, [b0, b1 ++ [⟨50, ⟨⟨0⟩, req.ID, req.ServName⟩, req.Hash, req.Address⟩] ++
        [⟨50, ⟨⟨0⟩, req.ID, req.ServName⟩, req.Hash, req.Address⟩], b2], rmax⟩).countP
        (fun kp =>
          decide (kp.2 = ⟨50, ⟨⟨0⟩, req.ID, req.ServName⟩, req.Hash, req.Address⟩ ∧
            b0.length ≤ kp.1 ∧ kp.1 < b0.length + (b1.length + 2)) &&
          !hardFails env kp.1 kp.2) ≤
      ((updateCache srt env
        ⟨3, [b0, b1 ++ [⟨50, ⟨⟨0⟩, req.ID, req.ServName⟩, req.Hash, req.Address⟩] ++
          [⟨50, ⟨⟨0⟩, req.ID, req.ServName⟩, req.Hash, req.Address⟩], b2],
          rmax⟩).Levels.getD 1 []).countP
          (fun q =>
            decide (q.Info.ID = req.ID ∧ q.Hash = req.Hash ∧ q.Address = req.Address)) := by
    rw [added_probes env b0 b1 b2 rmax
      ⟨50, ⟨⟨0⟩, req.ID, req.ServName⟩, req.Hash, req.Address⟩
      (fun kp => !hardFails env kp.1 kp.2)]
    rw [updateCache_three]
    simp only [List.getD_cons_zero, List.getD_cons_succ]
    rw [(srt.perm _).countP_eq, (rebanded_perm env b0 _ b2).2.countP_eq, List.countP_append,
      List.countP_filter]
    refine Nat.le_trans ?_ (Nat.le_add_right _ _)
    unfold results
    apply countP_le_countP_filterMap
    intro kp hkp
    simp only [Bool.and_eq_true, decide_eq_true_eq, Bool.not_eq_true'] at hkp
    obtain ⟨hrec, hnh⟩ := hkp
    rw [hrec] at hnh
    obtain ⟨q, hq, hid, hh, ha, hlo, hhi⟩ := probeOne_added env kp.1 req hnh
    refine ⟨q, by rw [hrec]; exact hq, ?_⟩
    simp [hid, hh, ha, hlo, hhi]
  refine ⟨hA, hB, ?_⟩
  intro hall
  refine Nat.le_trans (Nat.le_trans hA (Nat.le_of_eq ?_)) hB
  apply List.countP_congr
  intro kp hkp
  simp only [Bool.and_eq_true, decide_eq_true_eq, Bool.not_eq_true']
  constructor
  · intro h
    exact ⟨h, hall kp hkp h.1⟩
  · intro h
    exact h.1

/-- C8, amended, at the empty cache under `mixedEnv`: of the two probes of the
records added for `b` the first is a hard fail and the second a soft fail, and
exactly one record for `b` remains in level 1. -/
theorem duplicates_survive_sweep_witness :
    (sweepProbes mixedEnv
        (AddPeer
          (AddPeer ⟨3, [[], [], []], 3⟩
            { ID := "b", ServName := "sh", Hash := "h", Address := "10.0.0.2:80" })
          { ID := "b", ServName := "sh", Hash := "h", Address := "10.0.0.2:80" })).countP
        (fun kp =>
          decide (kp.2 = ⟨50, ⟨⟨0⟩, "b", "sh"⟩, "h", "10.0.0.2:80"⟩ ∧
            ([] : List RPeerInfo).length ≤ kp.1 ∧
            kp.1 < ([] : List RPeerInfo).length + (([] : List RPeerInfo).length + 2)) &&
          !hardFails mixedEnv kp.1 kp.2) = 1 ∧
      (sweepProbes mixedEnv
        (AddPeer
          (AddPeer ⟨3, [[], [], []], 3⟩
            { ID := "b", ServName := "sh", Hash := "h", Address := "10.0.0.2:80" })
          { ID := "b", ServName := "sh", Hash := "h", Address := "10.0.0.2:80" })).countP
          (fun kp =>
            decide (kp.2 = ⟨50, ⟨⟨0⟩, "b", "sh"⟩, "h", "10.0.0.2:80"⟩ ∧
              ([] : List RPeerInfo).length ≤ kp.1 ∧
              kp.1 < ([] : List RPeerInfo).length + (([] : List RPeerInfo).length + 2)) &&
            !hardFails mixedEnv kp.1 kp.2) ≤
        ((updateCache insertionSlice mixedEnv
          (AddPeer
            (AddPeer ⟨3, [[], [], []], 3⟩
              { ID := "b", ServName := "sh", Hash := "h", Address := "10.0.0.2:80" })
            { ID := "b", ServName := "sh", Hash := "h", Address := "10.0.0.2:80" })).Levels.getD
              1 []).countP
          (fun q => decide (q.Info.ID = "b" ∧ q.Hash = "h" ∧ q.Address = "10.0.0.2:80")) ∧
      ((updateCache insertionSlice mixedEnv
          (AddPeer
            (AddPeer ⟨3, [[], [], []], 3⟩
              { ID := "b", ServName := "sh", Hash := "h", Address := "10.0.0.2:80" })
            { ID := "b", ServName := "sh", Hash := "h", Address := "10.0.0.2:80" })).Levels.getD
              1 []).countP
          (fun q => decide (q.Info.ID = "b" ∧ q.Hash = "h" ∧ q.Address = "10.0.0.2:80")) = 1 :=
  ⟨by decide,
    (duplicates_survive_sweep insertionSlice mixedEnv [] [] [] 3
      { ID := "b", ServName := "sh", Hash := "h", Address := "10.0.0.2:80" }).2.1,
    by decide⟩

/-! ## The records that survive a sweep -/

theorem probeOne_count (env : Env) (k : Nat) (p q : RPeerInfo)
    (h : probeOne env k p = some q) :
    (10 ≤ q.RCount ↔ 10 ≤ countAfterProbe env k p) := by
  simp only [probeOne, PerfIndCompare, decide_eq_true_eq] at h
  simp only [countAfterProbe, gt_iff_lt]
  split_ifs at h with h1 h2 h3 h4 <;> cases h <;> simp only [h2, if_true, if_false] <;>
    omega

theorem probeOne_ident (env : Env) (k : Nat) (p q : RPeerInfo)
    (h : probeOne env k p = some q) : ident q = ident p := by
  obtain ⟨h1, _, h3, h4, _⟩ := probeOne_same_peer env k p q h
  simp [ident, h1, h3, h4]

theorem ident_probed (env : Env) (pr : List (Nat × RPeerInfo)) :
    (results env pr).map ident =
      (pr.filter (fun kp => !hardFails env kp.1 kp.2)).map (fun kp => ident kp.2) := by
  unfold results
  induction pr with
  | nil => rfl
  | cons kp ps ih =>
    cases hq : probeOne env kp.1 kp.2 with
    | none =>
      have hh := (probeOne_none_iff env kp.1 kp.2).mp hq
      simp [List.filterMap_cons, hq, List.filter_cons, hh, ih]
    | some q =>
      have hh : hardFails env kp.1 kp.2 = false := by
        cases hf : hardFails env kp.1 kp.2 with
        | false => rfl
        | true => rw [(probeOne_none_iff env kp.1 kp.2).mpr hf] at hq; cases hq
      simp [List.filterMap_cons, hq, List.filter_cons, hh, ih,
        probeOne_ident env kp.1 kp.2 q hq]

theorem ident_probed_kept (env : Env) (pr : List (Nat × RPeerInfo)) :
    ((results env pr).filter (fun q => decide (10 ≤ q.RCount))).map ident =
      (pr.filter (fun kp => !hardFails env kp.1 kp.2 &&
        decide (10 ≤ countAfterProbe env kp.1 kp.2))).map (fun kp => ident kp.2) := by
  unfold results
  induction pr with
  | nil => rfl
  | cons kp ps ih =>
    cases hq : probeOne env kp.1 kp.2 with
    | none =>
      have hh := (probeOne_none_iff env kp.1 kp.2).mp hq
      simp [List.filterMap_cons, hq, List.filter_cons, hh, ih]
    | some q =>
      have hh : hardFails env kp.1 kp.2 = false := by
        cases hf : hardFails env kp.1 kp.2 with
        | false => rfl
        | true => rw [(probeOne_none_iff env kp.1 kp.2).mpr hf] at hq; cases hq
      have hc := probeOne_count env kp.1 kp.2 q hq
      by_cases h10 : 10 ≤ q.RCount
      · simp [List.filterMap_cons, hq, List.filter_cons, hh, ih, h10, hc.mp h10,
          probeOne_ident env kp.1 kp.2 q hq]
      · have h10' : ¬ 10 ≤ countAfterProbe env kp.1 kp.2 := fun h => h10 (hc.mpr h)
        simp [List.filterMap_cons, hq, List.filter_cons, hh, ih, h10, h10']

theorem ident_reset50 (xs : List RPeerInfo) :
    (xs.map reset50).map ident = xs.map ident := by
  induction xs with
  | nil => rfl
  | cons x xs ih => simp [reset50, ident, ih]

theorem filter_split_count (xs : List RPeerInfo) :
    List.Perm
      (xs.filter (fun p => decide (90 < p.RCount)) ++
        xs.filter (fun p => decide (10 ≤ p.RCount ∧ p.RCount ≤ 90)))
      (xs.filter (fun p => decide (10 ≤ p.RCount))) := by
  induction xs with
  | nil => simp
  | cons x xs ih =>
    by_cases h1 : 90 < x.RCount
    · have d1 : decide (90 < x.RCount) = true := decide_eq_true h1
      have d2 : decide (10 ≤ x.RCount ∧ x.RCount ≤ 90) = false :=
        decide_eq_false (by omega)
      have d3 : decide (10 ≤ x.RCount) = true := decide_eq_true (by omega)
      simp only [List.filter_cons, d1, d2, d3, if_true, Bool.false_eq_true, if_false,
        List.cons_append]
      exact List.Perm.cons x ih
    · by_cases h3 : 10 ≤ x.RCount
      · have d1 : decide (90 < x.RCount) = false := decide_eq_false h1
        have d2 : decide (10 ≤ x.RCount ∧ x.RCount ≤ 90) = true :=
          decide_eq_true (by omega)
        have d3 : decide (10 ≤ x.RCount) = true := decide_eq_true h3
        simp only [List.filter_cons, d1, d2, d3, if_true, Bool.false_eq_true, if_false]
        exact List.perm_middle.trans (List.Perm.cons x ih)
      · have d1 : decide (90 < x.RCount) = false := decide_eq_false h1
        have d2 : decide (10 ≤ x.RCount ∧ x.RCount ≤ 90) = false :=
          decide_eq_false (by omega)
        have d3 : decide (10 ≤ x.RCount) = false := decide_eq_false h3
        simp only [List.filter_cons, d1, d2, d3, Bool.false_eq_true, if_false]
        exact ih

theorem filter_split_top (xs : List RPeerInfo) :
    List.Perm
      (xs.filter (fun p => decide (90 ≤ p.RCount)) ++
        xs.filter (fun p => decide (p.RCount < 90))) xs := by
  induction xs with
  | nil => simp
  | cons x xs ih =>
    by_cases h1 : 90 ≤ x.RCount
    · have h2 : ¬ x.RCount < 90 := by omega
      simp only [List.filter_cons, h1, h2, decide_True, decide_False, if_true,
        Bool.false_eq_true, if_false, List.cons_append]
      exact List.Perm.cons x ih
    · have h2 : x.RCount < 90 := by omega
      simp only [List.filter_cons, h1, h2, decide_True, decide_False, if_true,
        Bool.false_eq_true, if_false]
      exact List.perm_middle.trans (List.Perm.cons x ih)

theorem perm_regroup {α : Type} (a b c d : List α) :
    List.Perm ((a ++ b) ++ (c ++ d)) ((a ++ d) ++ (b ++ c)) := by
  rw [← Multiset.coe_eq_coe]
  simp only [← Multiset.coe_add]
  abel

/-- The identities held after a sweep of a three-level cache, counted with
multiplicity, are those of the probes of level 0 that are not a hard fail and
of the probes of level 1 that are not a hard fail and leave a counter of at
least 10. -/
theorem survivors_perm (srt : SliceSort) (env : Env) (b0 b1 b2 : List RPeerInfo) :
    List.Perm
      ((srt.run (rebanded env b0 b1 b2).1 ++ srt.run (rebanded env b0 b1 b2).2.1).map ident)
      (((levelProbes env 0 b0).filter (fun kp => !hardFails env kp.1 kp.2) ++
        (levelProbes env b0.length b1).filter
          (fun kp => !hardFails env kp.1 kp.2 &&
            decide (10 ≤ countAfterProbe env kp.1 kp.2))).map (fun kp => ident kp.2)) := by
  obtain ⟨h0, h1⟩ := rebanded_perm env b0 b1 b2
  have step1 := (List.Perm.append (srt.perm _) (srt.perm _)).trans (List.Perm.append h0 h1)
  have step2 := step1.trans (perm_regroup _ _ _ _)
  have step3 := step2.map ident
  refine step3.trans ?_
  rw [List.map_append (fun kp : Nat × RPeerInfo => ident kp.2), ← ident_probed,
    ← ident_probed_kept]
  rw [List.map_append, List.map_append, ident_reset50, ← List.map_append]
  exact List.Perm.append ((filter_split_top _).map ident) ((filter_split_count _).map ident)

/-- C13: for every three-level cache, every sort and every answer to every
probe, the probes of a sweep split into those of level 0, of level 1 and of the
last level, each list holding one probe per record of its level; after the
sweep the last level is empty and the identities (peer-id, service hash,
address) held in levels 0 and 1, counted with multiplicity, are exactly those
of the probes of level 0 that were not a hard fail and of the probes of level 1
that were not a hard fail and left a counter of at least 10; each of them is
counted once over the two levels.  In particular the identity of a level-0
record whose probe is not a hard fail is still in the cache. -/
theorem sweep_identities (srt : SliceSort) (env : Env) (b0 b1 b2 : List RPeerInfo)
    (rmax : Nat) :
    ∃ (pr0 pr1 pr2 : List (Nat × RPeerInfo)) (n0 n1 : List RPeerInfo),
      sweepProbes env ⟨3, [b0, b1, b2], rmax⟩ = pr0 ++ pr1 ++ pr2 ∧
      List.Perm (pr0.map Prod.snd) b0 ∧ List.Perm (pr1.map Prod.snd) b1 ∧
      List.Perm (pr2.map Prod.snd) b2 ∧
      updateCache srt env ⟨3, [b0, b1, b2], rmax⟩ = ⟨3, [n0, n1, []], rmax⟩ ∧
      List.Perm ((n0 ++ n1).map ident)
        ((pr0.filter (fun kp => !hardFails env kp.1 kp.2) ++
          pr1.filter (fun kp => !hardFails env kp.1 kp.2 &&
            decide (10 ≤ countAfterProbe env kp.1 kp.2))).map (fun kp => ident kp.2)) ∧
      ∀ kp ∈ pr0, hardFails env kp.1 kp.2 = false → ident kp.2 ∈ (n0 ++ n1).map ident := by
  have hperm := survivors_perm srt env b0 b1 b2
  refine ⟨levelProbes env 0 b0, levelProbes env b0.length b1,
    levelProbes env (b0.length + b1.length) b2, _, _, ?_, levelProbes_records env _ b0,
    levelProbes_records env _ b1, levelProbes_records env _ b2,
    updateCache_three srt env b0 b1 b2 rmax, hperm, ?_⟩
  · rw [sweepProbes_three, List.append_assoc]
  · intro kp hkp hh
    rw [hperm.mem_iff]
    refine List.mem_map.mpr ⟨kp, ?_, rfl⟩
    simp [hkp, hh]

/-- C13 at `mixedCache` with `mixedEnv` and insertion sort: the record of `a`
hard-fails, the two records of `b` stay (one soft fail, one pass) and the
record of `c` passes with counter 6 and is flushed. -/
theorem sweep_identities_witness :
    (∃ (pr0 pr1 pr2 : List (Nat × RPeerInfo)) (n0 n1 : List RPeerInfo),
      sweepProbes mixedEnv ⟨3, [mixedLevel0, mixedLevel1, []], 3⟩ = pr0 ++ pr1 ++ pr2 ∧
      List.Perm (pr0.map Prod.snd) mixedLevel0 ∧ List.Perm (pr1.map Prod.snd) mixedLevel1 ∧
      List.Perm (pr2.map Prod.snd) [] ∧
      updateCache insertionSlice mixedEnv ⟨3, [mixedLevel0, mixedLevel1, []], 3⟩ =
        ⟨3, [n0, n1, []], 3⟩ ∧
      List.Perm ((n0 ++ n1).map ident)
        ((pr0.filter (fun kp => !hardFails mixedEnv kp.1 kp.2) ++
          pr1.filter (fun kp => !hardFails mixedEnv kp.1 kp.2 &&
            decide (10 ≤ countAfterProbe mixedEnv kp.1 kp.2))).map (fun kp => ident kp.2)) ∧
      ∀ kp ∈ pr0, hardFails mixedEnv kp.1 kp.2 = false →
        ident kp.2 ∈ (n0 ++ n1).map ident) ∧
      updateCache insertionSlice mixedEnv mixedCache =
        ⟨3, [[], [⟨51, ⟨⟨5⟩, "b", "sh"⟩, "h", "10.0.0.2:80"⟩,
          ⟨40, ⟨⟨30⟩, "b", "sh"⟩, "h", "10.0.0.2:80"⟩], []], 3⟩ :=
  ⟨sweep_identities insertionSlice mixedEnv mixedLevel0 mixedLevel1 [] 3, by decide⟩

/-! ## Probes under a zero requirement -/

theorem hardFails_zero_requirement (env : Env) (k : Nat) (p : RPeerInfo)
    (hz : (env.GetOrRequestService k p.Info.ServName).NetworkHardReq.RTT = 0)
    (hr : 0 ≤ env.Ping k p.Info.ID) : hardFails env k p = true := by
  have h : env.Ping k p.Info.ID = 0 ∨
      (env.GetOrRequestService k p.Info.ServName).NetworkHardReq.RTT <
        env.Ping k p.Info.ID := by
    rw [hz]; omega
  simp only [hardFails, gt_iff_lt, decide_eq_true_eq]
  exact h

theorem probeLevel_single_hard (env : Env) (k : Nat) (p : RPeerInfo)
    (h : hardFails env k p = true) :
    updateCache.probeLevel env 1 k [p] 0 = ([], [(k, p)]) := by
  simp only [hardFails, gt_iff_lt, decide_eq_true_eq] at h
  simp [updateCache.probeLevel, PerfIndCompare, h, rpfs]

/-- C14: a probe under the zero requirement (`rtt-hard = 0`, what the sweep
goes on with when the registry lookup of the probe fails) with a ping result
`rtt ≥ 0` is a hard fail whatever the counter and the level: the probe loop
removes the record instead of penalizing it.  After a sweep of a three-level
cache the records held are the survivors of a sub-list of the probes of the
sweep in which no probe was made under the zero requirement with `rtt ≥ 0`;
hence, when every probe of the sweep is of that kind, the sweep leaves every
level empty. -/
theorem zero_requirement_removes (srt : SliceSort) (env : Env) (b0 b1 b2 : List RPeerInfo)
    (rmax : Nat) :
    (∀ (k : Nat) (p : RPeerInfo),
        (env.GetOrRequestService k p.Info.ServName).NetworkHardReq.RTT = 0 →
        0 ≤ env.Ping k p.Info.ID →
        probeOne env k p = none ∧ updateCache.probeLevel env 1 k [p] 0 = ([], [(k, p)])) ∧
      (∃ (surv : List (Nat × RPeerInfo)) (n0 n1 : List RPeerInfo),
        List.Sublist surv (sweepProbes env ⟨3, [b0, b1, b2], rmax⟩) ∧
        (∀ kp ∈ surv,
          ¬ ((env.GetOrRequestService kp.1 kp.2.Info.ServName).NetworkHardReq.RTT = 0 ∧
            0 ≤ env.Ping kp.1 kp.2.Info.ID)) ∧
        updateCache srt env ⟨3, [b0, b1, b2], rmax⟩ = ⟨3, [n0, n1, []], rmax⟩ ∧
        List.Perm ((n0 ++ n1).map ident) (surv.map (fun kp => ident kp.2))) ∧
      ((∀ kp ∈ sweepProbes env ⟨3, [b0, b1, b2], rmax⟩,
          (env.GetOrRequestService kp.1 kp.2.Info.ServName).NetworkHardReq.RTT = 0 ∧
            0 ≤ env.Ping kp.1 kp.2.Info.ID) →
        updateCache srt env ⟨3, [b0, b1, b2], rmax⟩ = ⟨3, [[], [], []], rmax⟩) := by
  refine ⟨?_, ?_, ?_⟩
  · intro k p hz hr
    have hh := hardFails_zero_requirement env k p hz hr
    exact ⟨(probeOne_none_iff env k p).mpr hh, probeLevel_single_hard env k p hh⟩
  · refine ⟨_, _, _, ?_, ?_, updateCache_three srt env b0 b1 b2 rmax,
      survivors_perm srt env b0 b1 b2⟩
    · rw [sweepProbes_three]
      exact List.Sublist.append (List.filter_sublist _)
        ((List.filter_sublist _).trans (List.sublist_append_left _ _))
    · intro kp hkp hzr
      have hh := hardFails_zero_requirement env kp.1 kp.2 hzr.1 hzr.2
      simp only [List.mem_append, List.mem_filter, Bool.and_eq_true, Bool.not_eq_true',
        decide_eq_true_eq] at hkp
      rcases hkp with ⟨_, hf⟩ | ⟨_, hf, _⟩
      · rw [hh] at hf; cases hf
      · rw [hh] at hf; cases hf
  · intro hall
    have hfm : ∀ pr : List (Nat × RPeerInfo),
        (∀ kp ∈ pr, kp ∈ sweepProbes env ⟨3, [b0, b1, b2], rmax⟩) → results env pr = [] := by
      intro pr hpr
      unfold results
      rw [List.filterMap_eq_nil_iff]
      intro kp hkp
      have hzr := hall kp (hpr kp hkp)
      exact (probeOne_none_iff env kp.1 kp.2).mpr
        (hardFails_zero_requirement env kp.1 kp.2 hzr.1 hzr.2)
    obtain ⟨h0, h1⟩ := rebanded_perm env b0 b1 b2
    rw [hfm (levelProbes env 0 b0) (fun kp h => by rw [sweepProbes_three]; simp [h]),
      hfm (levelProbes env b0.length b1) (fun kp h => by rw [sweepProbes_three]; simp [h])]
      at h0 h1
    simp only [List.filter_nil, List.map_nil, List.append_nil] at h0 h1
    rw [updateCache_three, h0.eq_nil, h1.eq_nil, sort_nil]

/-- C14 at `mixedCache`: under `lookupFailsEnv` the lookup fails for the
service of `b` and `c`, whose three records are removed while the record of `a`
passes; under `zeroReqEnv` the lookup fails at every probe and the sweep leaves
every level empty. -/
theorem zero_requirement_removes_witness :
    ((lookupFailsEnv.GetOrRequestService 1 "sh").NetworkHardReq.RTT = 0 ∧
        0 ≤ lookupFailsEnv.Ping 1 "b") ∧
      (probeOne lookupFailsEnv 1 ⟨50, ⟨⟨7⟩, "b", "sh"⟩, "h", "10.0.0.2:80"⟩ = none ∧
        updateCache.probeLevel lookupFailsEnv 1 1
            [⟨50, ⟨⟨7⟩, "b", "sh"⟩, "h", "10.0.0.2:80"⟩] 0 =
          ([], [(1, ⟨50, ⟨⟨7⟩, "b", "sh"⟩, "h", "10.0.0.2:80"⟩)])) ∧
      updateCache insertionSlice lookupFailsEnv mixedCache =
        ⟨3, [[⟨93, ⟨⟨5⟩, "a", "sx"⟩, "x", "10.0.0.1:80"⟩], [], []], 3⟩ ∧
      updateCache insertionSlice zeroReqEnv mixedCache = ⟨3, [[], [], []], 3⟩ :=
  ⟨⟨by decide, by decide⟩,
    (zero_requirement_removes insertionSlice lookupFailsEnv mixedLevel0 mixedLevel1 [] 3).1 1
      ⟨50, ⟨⟨7⟩, "b", "sh"⟩, "h", "10.0.0.2:80"⟩ (by decide) (by decide),
    by decide,
    (zero_requirement_removes insertionSlice zeroReqEnv mixedLevel0 mixedLevel1 [] 3).2.2
      (by decide)⟩

end PCache


/-! ## The allocation path -/

namespace LCA

open PCache (PeerID PerfInd PeerInfo)

theorem recognises_chr (c : Char) :
    Recognises (Regex.chr c).run (fun w => w = [c]) := by
  intro pos s pos' t
  cases s with
  | nil => simp [Regex.run]
  | cons x xs =>
    simp only [Regex.run]
    split_ifs with h
    · subst h
      simp only [List.mem_singleton, Prod.mk.injEq]
      constructor
      · rintro ⟨rfl, rfl⟩; exact ⟨[x], rfl, rfl, rfl⟩
      · rintro ⟨w, rfl, hs, hp⟩
        simp only [List.singleton_append, List.cons.injEq, true_and] at hs
        exact ⟨by simpa using hp, hs.symm⟩
    · simp only [List.not_mem_nil, false_iff]
      rintro ⟨w, rfl, hs, _⟩
      simp only [List.singleton_append, List.cons.injEq] at hs
      exact h hs.1

theorem recognises_range (lo hi : Char) :
    Recognises (Regex.range lo hi).run
      (fun w => ∃ x, w = [x] ∧ lo.toNat ≤ x.toNat ∧ x.toNat ≤ hi.toNat) := by
  intro pos s pos' t
  cases s with
  | nil =>
    simp only [Regex.run, List.not_mem_nil, false_iff]
    rintro ⟨w, ⟨y, rfl, _⟩, hs, _⟩
    simp at hs
  | cons x xs =>
    simp only [Regex.run]
    split_ifs with h
    · simp only [List.mem_singleton, Prod.mk.injEq]
      constructor
      · rintro ⟨rfl, rfl⟩; exact ⟨[x], ⟨x, rfl, h⟩, rfl, rfl⟩
      · rintro ⟨w, ⟨y, rfl, _⟩, hs, hp⟩
        simp only [List.singleton_append, List.cons.injEq] at hs
        exact ⟨by simpa using hp, hs.2.symm⟩
    · simp only [List.not_mem_nil, false_iff]
      rintro ⟨w, ⟨y, rfl, hy⟩, hs, _⟩
      simp only [List.singleton_append, List.cons.injEq] at hs
      exact h (hs.1 ▸ hy)

theorem recognises_cat (a b : Regex) (La Lb : List Char → Prop)
    (ha : Recognises a.run La) (hb : Recognises b.run Lb) :
    Recognises (Regex.cat a b).run (fun w => ∃ u v, La u ∧ Lb v ∧ w = u ++ v) := by
  intro pos s pos' t
  simp only [Regex.run, List.mem_flatMap, Prod.exists]
  constructor
  · rintro ⟨p1, s1, h1, h2⟩
    obtain ⟨u, hu, rfl, rfl⟩ := (ha pos s p1 s1).mp h1
    obtain ⟨v, hv, rfl, rfl⟩ := (hb _ _ pos' t).mp h2
    exact ⟨u ++ v, ⟨u, v, hu, hv, rfl⟩, by simp, by simp; omega⟩
  · rintro ⟨w, ⟨u, v, hu, hv, rfl⟩, rfl, rfl⟩
    refine ⟨pos + u.length, v ++ t, (ha _ _ _ _).mpr ⟨u, hu, by simp, rfl⟩, ?_⟩
    exact (hb _ _ _ _).mpr ⟨v, hv, rfl, by simp; omega⟩

theorem recognises_repRun (f : Nat → List Char → List (Nat × List Char))
    (L : List Char → Prop) (hf : Recognises f L) :
    ∀ hi lo : Nat, Recognises (repRun f lo hi)
      (fun w => ∃ ws : List (List Char),
        lo ≤ ws.length ∧ ws.length ≤ hi ∧ (∀ u ∈ ws, L u) ∧ w = ws.flatten) := by
  intro hi
  induction hi with
  | zero =>
    intro lo pos s pos' t
    simp only [repRun]
    constructor
    · intro h
      split_ifs at h with h0
      · simp only [List.mem_singleton, Prod.mk.injEq] at h
        obtain ⟨rfl, rfl⟩ := h
        exact ⟨[], ⟨[], by simp [h0], by simp, by simp, rfl⟩, rfl, rfl⟩
      · simp at h
    · rintro ⟨w, ⟨ws, hlo, hhi, _, rfl⟩, rfl, rfl⟩
      have hws : ws = [] := List.length_eq_zero.mp (by omega)
      subst hws
      have h0 : lo = 0 := by simpa using hlo
      simp [h0]
  | succ hi ih =>
    intro lo pos s pos' t
    simp only [repRun, List.mem_append, List.mem_flatMap, Prod.exists]
    constructor
    · rintro (h | ⟨p1, s1, h1, h2⟩)
      · split_ifs at h with h0
        · simp only [List.mem_singleton, Prod.mk.injEq] at h
          obtain ⟨rfl, rfl⟩ := h
          exact ⟨[], ⟨[], by simp [h0], by simp, by simp, rfl⟩, rfl, rfl⟩
        · simp at h
      · obtain ⟨u, hu, rfl, rfl⟩ := (hf pos s p1 s1).mp h1
        obtain ⟨w, ⟨ws, hlo, hhi, hall, rfl⟩, rfl, rfl⟩ := (ih (lo - 1) _ _ pos' t).mp h2
        refine ⟨u ++ ws.flatten, ⟨u :: ws, ?_, ?_, ?_, rfl⟩, by simp, by simp; omega⟩
        · simp only [List.length_cons]; omega
        · simp only [List.length_cons]; omega
        · intro v hv
          rcases List.mem_cons.mp hv with rfl | hv
          · exact hu
          · exact hall v hv
    · rintro ⟨w, ⟨ws, hlo, hhi, hall, rfl⟩, rfl, rfl⟩
      cases ws with
      | nil =>
        have h0 : lo = 0 := by simpa using hlo
        left
        simp [h0]
      | cons u ws =>
        right
        simp only [List.length_cons] at hlo hhi
        refine ⟨pos + u.length, ws.flatten ++ t,
          (hf _ _ _ _).mpr ⟨u, hall u (by simp), by simp, rfl⟩, ?_⟩
        refine (ih (lo - 1) _ _ _ _).mpr ⟨ws.flatten, ⟨ws, by omega, by omega, ?_, rfl⟩, rfl, ?_⟩
        · intro v hv; exact hall v (by simp [hv])
        · simp; omega

theorem recognises_rep (r : Regex) (lo hi : Nat) (L : List Char → Prop)
    (hr : Recognises r.run L) :
    Recognises (Regex.rep r lo hi).run
      (fun w => ∃ ws : List (List Char),
        lo ≤ ws.length ∧ ws.length ≤ hi ∧ (∀ u ∈ ws, L u) ∧ w = ws.flatten) := by
  have h := recognises_repRun (fun p t => r.run p t) L hr hi lo
  intro pos s pos' t
  simpa only [Regex.run] using h pos s pos' t

theorem isDigit_iff_range (x : Char) :
    ('0'.toNat ≤ x.toNat ∧ x.toNat ≤ '9'.toNat) ↔ x.isDigit = true := by
  simp only [Char.isDigit, Bool.and_eq_true, decide_eq_true_eq, ge_iff_le, UInt32.le_def,
    Fin.le_def, Char.toNat, UInt32.toNat]
  exact Iff.rfl

theorem flatten_singletons (P : Char → Prop) (ws : List (List Char))
    (hall : ∀ u ∈ ws, ∃ x, u = [x] ∧ P x) :
    ws.flatten.length = ws.length ∧ ∀ c ∈ ws.flatten, P c := by
  induction ws with
  | nil => simp
  | cons u us ih =>
    obtain ⟨x, rfl, hx⟩ := hall u (by simp)
    obtain ⟨h1, h2⟩ := ih (fun v hv => hall v (by simp [hv]))
    refine ⟨by simp [h1], ?_⟩
    intro c hc
    simp only [List.flatten_cons, List.singleton_append, List.mem_cons] at hc
    rcases hc with rfl | hc
    · exact hx
    · exact h2 c hc

theorem digits_language (lo hi : Nat) (w : List Char) :
    (∃ ws : List (List Char), lo ≤ ws.length ∧ ws.length ≤ hi ∧
        (∀ u ∈ ws, ∃ x, u = [x] ∧ '0'.toNat ≤ x.toNat ∧ x.toNat ≤ '9'.toNat) ∧
        w = ws.flatten) ↔ IsDigits lo hi w := by
  constructor
  · rintro ⟨ws, hlo, hhi, hall, rfl⟩
    obtain ⟨h1, h2⟩ := flatten_singletons _ ws hall
    exact ⟨by omega, by omega, fun c hc => (isDigit_iff_range c).mp (h2 c hc)⟩
  · rintro ⟨hlo, hhi, hall⟩
    refine ⟨w.map (fun c => [c]), by simpa using hlo, by simpa using hhi, ?_, ?_⟩
    · intro u hu
      obtain ⟨c, hc, rfl⟩ := List.mem_map.mp hu
      exact ⟨c, rfl, (isDigit_iff_range c).mpr (hall c hc)⟩
    · clear hlo hhi hall
      induction w with
      | nil => rfl
      | cons c cs ih => simp [← ih]

theorem recognises_congr (f : Nat → List Char → List (Nat × List Char))
    (L L' : List Char → Prop) (h : ∀ w, L w ↔ L' w) (hf : Recognises f L) :
    Recognises f L' := by
  intro pos s pos' t
  rw [hf pos s pos' t]
  constructor
  · rintro ⟨w, hw, rest⟩; exact ⟨w, (h w).mp hw, rest⟩
  · rintro ⟨w, hw, rest⟩; exact ⟨w, (h w).mpr hw, rest⟩

theorem recognises_digits (lo hi : Nat) :
    Recognises (Regex.rep (Regex.range '0' '9') lo hi).run (IsDigits lo hi) :=
  recognises_congr _ _ _ (digits_language lo hi)
    (recognises_rep _ lo hi _ (recognises_range '0' '9'))

/-- The language of the pattern between `^` and `$`. -/
theorem recognises_body :
    Recognises
      (Regex.cat
        (Regex.rep (Regex.cat (Regex.rep (Regex.range '0' '9') 1 3) (Regex.chr '.')) 3 3)
        (Regex.cat (Regex.rep (Regex.range '0' '9') 1 3)
          (Regex.cat (Regex.chr ':') (Regex.rep (Regex.range '0' '9') 1 5)))).run
      (fun w => ∃ a b c d p : List Char,
        IsDigits 1 3 a ∧ IsDigits 1 3 b ∧ IsDigits 1 3 c ∧ IsDigits 1 3 d ∧ IsDigits 1 5 p ∧
          w = a ++ '.' :: (b ++ '.' :: (c ++ '.' :: (d ++ ':' :: p)))) := by
  have hgroup := recognises_cat _ _ _ _ (recognises_digits 1 3) (recognises_chr '.')
  have hgroups := recognises_rep _ 3 3 _ hgroup
  have htail := recognises_cat _ _ _ _ (recognises_digits 1 3)
    (recognises_cat _ _ _ _ (recognises_chr ':') (recognises_digits 1 5))
  refine recognises_congr _ _ _ ?_ (recognises_cat _ _ _ _ hgroups htail)
  intro w
  constructor
  · rintro ⟨u, v, ⟨ws, hlo, hhi, hall, rfl⟩, ⟨d, v2, hd, ⟨u3, p, rfl, hp, rfl⟩, rfl⟩, rfl⟩
    match ws, hlo, hhi, hall with
    | [g1, g2, g3], _, _, hall =>
      obtain ⟨a, _, ha, rfl, rfl⟩ := hall g1 (by simp)
      obtain ⟨b, _, hb, rfl, rfl⟩ := hall g2 (by simp)
      obtain ⟨c, _, hc, rfl, rfl⟩ := hall g3 (by simp)
      exact ⟨a, b, c, d, p, ha, hb, hc, hd, hp, by simp⟩
  · rintro ⟨a, b, c, d, p, ha, hb, hc, hd, hp, rfl⟩
    refine ⟨a ++ ['.'] ++ (b ++ ['.']) ++ (c ++ ['.']), d ++ ':' :: p,
      ⟨[a ++ ['.'], b ++ ['.'], c ++ ['.']], by simp, by simp, ?_, by simp⟩,
      ⟨d, ':' :: p, hd, ⟨[':'], p, rfl, hp, rfl⟩, rfl⟩, by simp⟩
    intro g hg
    simp only [List.mem_cons, List.mem_singleton, List.not_mem_nil, or_false] at hg
    rcases hg with rfl | rfl | rfl
    · exact ⟨a, ['.'], ha, rfl, rfl⟩
    · exact ⟨b, ['.'], hb, rfl, rfl⟩
    · exact ⟨c, ['.'], hc, rfl, rfl⟩

theorem addrPattern_run (i : Nat) (t : List Char) :
    (addrPattern.run i t).isEmpty = false ↔
      i = 0 ∧ ∃ a b c d p : List Char,
        IsDigits 1 3 a ∧ IsDigits 1 3 b ∧ IsDigits 1 3 c ∧ IsDigits 1 3 d ∧ IsDigits 1 5 p ∧
          t = a ++ '.' :: (b ++ '.' :: (c ++ '.' :: (d ++ ':' :: p))) := by
  have hne : ∀ l : List (Nat × List Char), l.isEmpty = false ↔ ∃ x, x ∈ l := by
    intro l
    cases l with
    | nil => simp
    | cons x xs => simp
  rw [hne]
  simp only [addrPattern]
  constructor
  · rintro ⟨⟨p', u⟩, hx⟩
    rw [Regex.run, List.mem_flatMap] at hx
    obtain ⟨⟨p1, s1⟩, h1, h2⟩ := hx
    rw [Regex.run, List.mem_flatMap] at h1
    obtain ⟨⟨p0, s0⟩, h0, hb⟩ := h1
    simp only [Regex.run] at h0 h2
    by_cases hi : i = 0
    swap
    · rw [if_neg hi] at h0
      exact absurd h0 (List.not_mem_nil _)
    by_cases hs1 : s1 = []
    swap
    · rw [if_neg hs1] at h2
      exact absurd h2 (List.not_mem_nil _)
    rw [if_pos hi] at h0
    simp only [List.mem_singleton, Prod.mk.injEq] at h0
    obtain ⟨rfl, rfl⟩ := h0
    simp only at hb hs1
    subst hs1
    obtain ⟨w, hw, hs, _⟩ := (recognises_body _ _ _ _).mp hb
    rw [List.append_nil] at hs
    subst hs
    exact ⟨hi, hw⟩
  · rintro ⟨rfl, hw⟩
    refine ⟨(0 + t.length, []), ?_⟩
    rw [Regex.run, List.mem_flatMap]
    refine ⟨(0 + t.length, []), ?_, by simp [Regex.run]⟩
    rw [Regex.run, List.mem_flatMap]
    refine ⟨(0, t), by simp [Regex.run], ?_⟩
    exact (recognises_body _ _ _ _).mpr ⟨t, hw, by simp, rfl⟩

/-- The model of `regexp.Match` with the pattern of `requestAlloc` accepts
exactly the lines of the grammar of the specification. -/
theorem regexpMatch_addrPattern (s : String) :
    regexpMatch addrPattern s = true ↔ DottedQuadPort s := by
  simp only [regexpMatch, List.any_eq_true, List.mem_range, Bool.not_eq_true', DottedQuadPort]
  constructor
  · rintro ⟨i, _, hi⟩
    obtain ⟨rfl, h⟩ := (addrPattern_run i _).mp hi
    simpa using h
  · intro h
    exact ⟨0, by omega, (addrPattern_run 0 _).mpr ⟨rfl, by simpa using h⟩⟩

/-- C9: for every reply line `s` read from an allocator (the write having
succeeded), `requestAlloc` returns `s` unchanged with no error if and only if
`s` is, in its entirety, a line of the dotted-quad grammar; for every other
line it returns the error "Returned address does not match format" (and the
empty string). -/
theorem requestAlloc_grammar (stream : Stream) (serviceHash s : String)
    (hw : stream.write (LCAAPCmdStartProgram ++ " " ++ serviceHash) = none)
    (hr : stream.read (LCAAPCmdStartProgram ++ " " ++ serviceHash) = Except.ok s) :
    (requestAlloc stream serviceHash = Except.ok s ↔ DottedQuadPort s) ∧
      (requestAlloc stream serviceHash =
          Except.error "Returned address does not match format" ↔ ¬ DottedQuadPort s) := by
  simp only [requestAlloc, hw, hr]
  by_cases h : regexpMatch addrPattern s = true
  · have hg := (regexpMatch_addrPattern s).mp h
    rw [if_pos h]
    exact ⟨⟨fun _ => hg, fun _ => rfl⟩, ⟨fun he => (by cases he), fun hn => absurd hg hn⟩⟩
  · have hg : ¬ DottedQuadPort s := fun hd => h ((regexpMatch_addrPattern s).mpr hd)
    rw [if_neg h]
    exact ⟨⟨fun he => (by cases he), fun hd => absurd hd hg⟩, ⟨fun _ => hg, fun _ => rfl⟩⟩

/-- C9 at the reply `192.168.1.5:9000` of scenario 3 of the specification. -/
theorem requestAlloc_grammar_witness :
    (requestAlloc (replyStream "192.168.1.5:9000") "svc" = Except.ok "192.168.1.5:9000" ↔
        DottedQuadPort "192.168.1.5:9000") ∧
      (requestAlloc (replyStream "192.168.1.5:9000") "svc" =
          Except.error "Returned address does not match format" ↔
        ¬ DottedQuadPort "192.168.1.5:9000") :=
  requestAlloc_grammar (replyStream "192.168.1.5:9000") "svc" "192.168.1.5:9000" rfl rfl

theorem attempt_eq_some (net : Net) (serviceHash : String) (n : Nat) (p : PeerInfo)
    (reply : String) :
    attempt net serviceHash n p = some reply ↔ CandidateSucceeds net serviceHash n p reply := by
  unfold attempt CandidateSucceeds
  cases hs : net.NewStream n p.ID with
  | error e => simp
  | ok stream =>
    simp only [Except.ok.injEq, exists_eq_left']
    cases hw : stream.write (LCAAPCmdStartProgram ++ " " ++ serviceHash) with
    | some e => simp [requestAlloc, hw]
    | none =>
      cases hr : stream.read (LCAAPCmdStartProgram ++ " " ++ serviceHash) with
      | error e => simp [requestAlloc, hw, hr]
      | ok s =>
        by_cases hm : regexpMatch addrPattern s = true
        · have hg := (regexpMatch_addrPattern s).mp hm
          simp only [requestAlloc, hw, hr, if_pos hm, Option.some.injEq, Except.ok.injEq,
            true_and]
          constructor
          · rintro rfl; exact ⟨rfl, hg⟩
          · rintro ⟨rfl, _⟩; rfl
        · have hg : ¬ DottedQuadPort s := fun hd => hm ((regexpMatch_addrPattern s).mpr hd)
          simp only [requestAlloc, hw, hr, if_neg hm, Except.ok.injEq, true_and]
          constructor
          · intro h; cases h
          · rintro ⟨rfl, hd⟩
            exact absurd hd hg

theorem loop_step (net : Net) (serviceHash : String) (n : Nat) (p : PeerInfo)
    (ps : List PeerInfo) :
    AllocService.loop net serviceHash n (p :: ps) =
      match attempt net serviceHash n p with
      | some result => Except.ok (p.ID, result, p.Perf)
      | none => AllocService.loop net serviceHash (n + 1) ps := by
  simp only [AllocService.loop, attempt]
  cases net.NewStream n p.ID with
  | error e => simp
  | ok stream =>
    cases h2 : requestAlloc stream serviceHash <;> simp [h2]

/-- The loop either runs through the list, every attempt failing, or stops at
the first attempt that succeeds. -/
theorem loop_cases (net : Net) (serviceHash : String) :
    ∀ (peers : List PeerInfo) (n : Nat),
      (AllocService.loop net serviceHash n peers =
            Except.error "Could not find peer to allocate service" ∧
          ∀ (i : Nat) (p : PeerInfo), peers[i]? = some p →
            attempt net serviceHash (n + i) p = none) ∨
        ∃ (i : Nat) (p : PeerInfo) (reply : String), peers[i]? = some p ∧
          attempt net serviceHash (n + i) p = some reply ∧
          (∀ (j : Nat) (q : PeerInfo), j < i → peers[j]? = some q →
            attempt net serviceHash (n + j) q = none) ∧
          AllocService.loop net serviceHash n peers = Except.ok (p.ID, reply, p.Perf) := by
  intro peers
  induction peers with
  | nil =>
    intro n
    left
    exact ⟨rfl, by intro i p h; simp at h⟩
  | cons x xs ih =>
    intro n
    rw [loop_step]
    cases hx : attempt net serviceHash n x with
    | some r =>
      right
      exact ⟨0, x, r, by simp, by simpa using hx, by intro j q hj; omega, rfl⟩
    | none =>
      rcases ih (n + 1) with ⟨herr, hall⟩ | ⟨i, p, reply, hp, hsome, hbefore, hok⟩
      · left
        refine ⟨herr, ?_⟩
        intro i p hp
        cases i with
        | zero =>
          simp only [List.getElem?_cons_zero, Option.some.injEq] at hp
          subst hp; simpa using hx
        | succ i =>
          simp only [List.getElem?_cons_succ] at hp
          have := hall i p hp
          rwa [show n + 1 + i = n + (i + 1) by omega] at this
      · right
        refine ⟨i + 1, p, reply, by simpa using hp, ?_, ?_, hok⟩
        · rwa [show n + 1 + i = n + (i + 1) by omega] at hsome
        · intro j q hj hq
          cases j with
          | zero =>
            simp only [List.getElem?_cons_zero, Option.some.injEq] at hq
            subst hq; simpa using hx
          | succ j =>
            simp only [List.getElem?_cons_succ] at hq
            have := hbefore j q (by omega) hq
            rwa [show n + 1 + j = n + (j + 1) by omega] at this

theorem attempt_eq_none (net : Net) (serviceHash : String) (n : Nat) (p : PeerInfo) :
    attempt net serviceHash n p = none ↔
      ∀ r : String, ¬ CandidateSucceeds net serviceHash n p r := by
  constructor
  · intro h r hr
    rw [← attempt_eq_some, h] at hr
    cases hr
  · intro h
    cases ha : attempt net serviceHash n p with
    | none => rfl
    | some r => exact absurd ((attempt_eq_some net serviceHash n p r).mp ha) (h r)

/-- C10: for every ranked list of allocators and every outcome of the
attempts, `AllocService` returns the peer-id, the reply verbatim and the perf
of the first candidate in list order whose stream opens and whose reply matches
the dotted-quad grammar, every earlier candidate having failed; it returns an
error exactly when no candidate of the list succeeds (the empty list
included), and that error is "Could not find peer to allocate service". -/
theorem AllocService_first_success (net : Net) (serviceHash : String)
    (peers : List PeerInfo) :
    (∀ (i : Nat) (p : PeerInfo) (reply : String), peers[i]? = some p →
        CandidateSucceeds net serviceHash i p reply →
        (∀ (j : Nat) (q : PeerInfo), j < i → peers[j]? = some q →
          ∀ r : String, ¬ CandidateSucceeds net serviceHash j q r) →
        AllocService (Except.ok peers) net serviceHash = Except.ok (p.ID, reply, p.Perf)) ∧
      ((∃ e, AllocService (Except.ok peers) net serviceHash = Except.error e) ↔
        ∀ (i : Nat) (p : PeerInfo), peers[i]? = some p →
          ∀ r : String, ¬ CandidateSucceeds net serviceHash i p r) ∧
      (∀ e, AllocService (Except.ok peers) net serviceHash = Except.error e →
        e = "Could not find peer to allocate service") := by
  have hcases := loop_cases net serviceHash peers 0
  simp only [Nat.zero_add] at hcases
  have hdef : AllocService (Except.ok peers) net serviceHash =
      AllocService.loop net serviceHash 0 peers := rfl
  rw [hdef]
  refine ⟨?_, ?_, ?_⟩
  · intro i p reply hp hsucc hbefore
    have hi := (attempt_eq_some net serviceHash i p reply).mpr hsucc
    rcases hcases with ⟨_, hall⟩ | ⟨i', p', reply', hp', hsome', hbefore', hok⟩
    · rw [hall i p hp] at hi; cases hi
    · rcases Nat.lt_trichotomy i' i with hlt | heq | hgt
      · exact absurd ((attempt_eq_some net serviceHash i' p' reply').mp hsome')
          (hbefore i' p' hlt hp' reply')
      · subst heq
        rw [hp] at hp'
        injection hp' with hpp
        subst hpp
        rw [hi] at hsome'
        injection hsome' with hrr
        subst hrr
        exact hok
      · rw [hbefore' i p hgt hp] at hi; cases hi
  · constructor
    · rintro ⟨e, he⟩ i p hp
      rcases hcases with ⟨_, hall⟩ | ⟨i', p', reply', _, _, _, hok⟩
      · exact (attempt_eq_none net serviceHash i p).mp (hall i p hp)
      · rw [hok] at he; cases he
    · intro hnone
      rcases hcases with ⟨herr, _⟩ | ⟨i', p', reply', hp', hsome', _, _⟩
      · exact ⟨_, herr⟩
      · exact absurd ((attempt_eq_some net serviceHash i' p' reply').mp hsome')
          (hnone i' p' hp' reply')
  · intro e he
    rcases hcases with ⟨herr, _⟩ | ⟨i', p', reply', _, _, _, hok⟩
    · rw [herr] at he
      injection he with he
      exact he.symm
    · rw [hok] at he; cases he

/-- C10 at scenario 4 of the specification: `A2`, ranked first, replies
`not-an-address` and is skipped; `A1` replies `192.168.1.6:9001`; the result is
the tuple of `A1`. -/
theorem AllocService_first_success_witness :
    AllocService
        (Except.ok [⟨⟨15⟩, "A2", "allocator"⟩, ⟨⟨30⟩, "A1", "allocator"⟩])
        scenarioNet "svc" =
      Except.ok ("A1", "192.168.1.6:9001", ⟨30⟩) :=
  (AllocService_first_success scenarioNet "svc"
    [⟨⟨15⟩, "A2", "allocator"⟩, ⟨⟨30⟩, "A1", "allocator"⟩]).1 1
    ⟨⟨30⟩, "A1", "allocator"⟩ "192.168.1.6:9001" rfl
    ⟨replyStream "192.168.1.6:9001", rfl, rfl, rfl,
      (regexpMatch_addrPattern "192.168.1.6:9001").mp (by decide)⟩
    (by
      intro j q hj hq
      have hj0 : j = 0 := by omega
      subst hj0
      simp only [List.getElem?_cons_zero, Option.some.injEq] at hq
      subst hq
      exact (attempt_eq_none scenarioNet "svc" 0 ⟨⟨15⟩, "A2", "allocator"⟩).mp (by decide))

/-! ## Allocation on a better allocator -/

/-- What the loop of `AllocBetterService` guarantees: a candidate whose rtt is
strictly above the floor stops the loop with the error "Could not find better
service" and no stream is requested for it. -/
theorem AllocBetterService_stops_at_worse (net : Net) (serviceHash : String) (perf : PerfInd)
    (n : Nat) (p : PeerInfo) (ps : List PeerInfo) (h : perf.RTT < p.Perf.RTT) :
    AllocBetterService.loop net serviceHash perf n (p :: ps) =
      (Except.error "Could not find better service", []) := by
  simp [AllocBetterService.loop, PCache.PerfIndCompare, h]

/-- What the loop of `AllocBetterService` guarantees about a success: the perf
returned is not worse than the floor (its rtt is at most the floor rtt). -/
theorem AllocBetterService_success_le (net : Net) (serviceHash : String) (perf : PerfInd) :
    ∀ (peers : List PeerInfo) (n : Nat) (id : PeerID) (reply : String) (got : PerfInd),
      (AllocBetterService.loop net serviceHash perf n peers).1 = Except.ok (id, reply, got) →
      got.RTT ≤ perf.RTT := by
  intro peers
  induction peers with
  | nil => intro n id reply got h; cases h
  | cons p ps ih =>
    intro n id reply got h
    simp only [AllocBetterService.loop, PCache.PerfIndCompare, decide_eq_true_eq] at h
    by_cases hc : perf.RTT < p.Perf.RTT
    · rw [if_pos hc] at h
      cases h
    · rw [if_neg hc] at h
      cases hs : net.NewStream n p.ID with
      | error e =>
        rw [hs] at h
        exact ih (n + 1) id reply got h
      | ok stream =>
        rw [hs] at h
        cases hr : requestAlloc stream serviceHash with
        | error e =>
          simp only [hr] at h
          exact ih (n + 1) id reply got h
        | ok result =>
          simp only [hr, Except.ok.injEq, Prod.mk.injEq] at h
          obtain ⟨_, _, hgot⟩ := h
          rw [← hgot]
          omega

/-- C11, the code at the failing input: the only candidate `A1` has rtt 20 and
the floor is rtt 20, so the candidate is not strictly better than the floor.
`AllocBetterService` does not return "Could not find better service": it
requests a stream to `A1` and returns the tuple of `A1`, whose perf equals the
floor. -/
theorem AllocBetterService_equal_perf :
    AllocBetterService (Except.ok [⟨⟨20⟩, "A1", "allocator"⟩]) scenarioNet "svc" ⟨20⟩ =
      (Except.ok ("A1", "192.168.1.6:9001", ⟨20⟩), ["A1"]) := by
  rfl

/-! ## The URL rewrite of `RequestHandler` -/

theorem span_at_sep (sep : Char) (seg r : List Char) (h : ∀ c ∈ seg, c ≠ sep) :
    (seg ++ sep :: r).span (fun c => decide (c ≠ sep)) = (seg, sep :: r) := by
  have hp : ∀ a ∈ seg, (fun c => decide (c ≠ sep)) a = true := by
    intro a ha; simpa using h a ha
  rw [List.span_eq_take_drop, List.takeWhile_append_of_pos hp, List.dropWhile_append_of_pos hp]
  simp

theorem span_no_sep (sep : Char) (seg : List Char) (h : ∀ c ∈ seg, c ≠ sep) :
    seg.span (fun c => decide (c ≠ sep)) = (seg, []) := by
  have hp : ∀ a ∈ seg, (fun c => decide (c ≠ sep)) a = true := by
    intro a ha; simpa using h a ha
  rw [List.span_eq_take_drop, List.takeWhile_eq_self_iff.mpr hp,
    List.dropWhile_eq_nil_iff.mpr hp]

theorem SplitN_after_slash (seg r : List Char) (h : ∀ c ∈ seg, c ≠ '/') :
    SplitN ('/' :: (seg ++ '/' :: r)) '/' 3 = [[], seg, r] := by
  have h0 : ('/' :: (seg ++ '/' :: r)).span (fun c => decide (c ≠ '/')) =
      ([], '/' :: (seg ++ '/' :: r)) := span_at_sep '/' [] (seg ++ '/' :: r) (by simp)
  have h1 := span_at_sep '/' seg r h
  simp only [SplitN, SplitN.pieces, h0, h1]

theorem SplitN_no_second_slash (t : List Char) (h : ∀ c ∈ t, c ≠ '/') :
    SplitN ('/' :: t) '/' 3 = [[], t] := by
  have h0 : ('/' :: t).span (fun c => decide (c ≠ '/')) = ([], '/' :: t) :=
    span_at_sep '/' [] t (by simp)
  have h1 := span_no_sep '/' t h
  simp only [SplitN, SplitN.pieces, h0, h1]

/-- What the rewrite does when a second `/` follows the first segment: the
target is `http://<address>/` followed by everything after that `/`, path and
query. -/
theorem targetURL_after_slash (address : String) (seg r : List Char)
    (h : ∀ c ∈ seg, c ≠ '/') :
    RequestHandler.targetURL address (String.mk ('/' :: (seg ++ '/' :: r))) =
      "http://" ++ address ++ "/" ++ String.mk r := by
  have ht : (String.mk ('/' :: (seg ++ '/' :: r))).toList = '/' :: (seg ++ '/' :: r) := rfl
  simp only [RequestHandler.targetURL, ht, SplitN_after_slash seg r h]
  rfl

/-- What the rewrite does when no second `/` follows: the target is
`http://<address>/`, whatever follows the first `/`, a query included. -/
theorem targetURL_no_second_slash (address : String) (t : List Char)
    (h : ∀ c ∈ t, c ≠ '/') :
    RequestHandler.targetURL address (String.mk ('/' :: t)) =
      "http://" ++ address ++ "/" ++ "" := by
  have ht : (String.mk ('/' :: t)).toList = '/' :: t := rfl
  simp only [RequestHandler.targetURL, ht, SplitN_no_second_slash t h]
  rfl

/-- C12, the code at the failing input: for the request URI `/svc?x=1` (first
segment `svc`, rest `?x=1`) the target built is `http://a/`, without the query
`?x=1`; for `/svc/a/b?x=1` it is `http://a/a/b?x=1`. -/
theorem targetURL_drops_query :
    RequestHandler.targetURL "a" "/svc?x=1" = "http://a/" ∧
      RequestHandler.targetURL "a" "/svc/a/b?x=1" = "http://a/a/b?x=1" := by
  decide

end LCA
